import Mathlib

/-!
Verification of the win-state quote-extraction pipeline.

The development shallowly embeds the Rust sources:
  * `src/yf_quote_worker/src/lib.rs` (Cloudflare worker pipeline),
  * `src/selector.rs` (self-healing DOM candidate scanner),
  * `src/rust_extractor/src/bin/yf_quote.rs` (CLI extractor),
and proves/refutes the spec's claims about them.

External collaborators (the HTTP fetcher, the `scraper` crate's DOM engine,
the regex engine and `serde_json`) are modelled at their interfaces:
fetched pages and DOM selection appear as explicit oracle arguments,
JSON values as an inductive `Json` type.  serde_json's `Map` is modelled
as an association list: the claims below depend only on key lookup and
membership, never on the map's iteration order.
-/

/-!
String primitives re-implemented structurally over `String.data`, so that
every concrete evaluation reduces inside the kernel (the core library's
counterparts are compiled by well-founded recursion and do not).  Their
semantics match the Rust `str` methods the sources use, on the inputs at
hand (`sTrim` covers the ASCII whitespace characters).
-/

def sIsEmpty (s : String) : Bool := s.data.isEmpty

/-- `str::trim`. -/
def sTrim (s : String) : String :=
  String.mk (((s.data.dropWhile Char.isWhitespace).reverse.dropWhile Char.isWhitespace).reverse)

/-- `str::starts_with`. -/
def sStartsWith (s pre : String) : Bool := pre.data.isPrefixOf s.data

/-- `str::ends_with`. -/
def sEndsWith (s post : String) : Bool := post.data.reverse.isPrefixOf s.data.reverse

/-- Remove the last `n` characters (used for the trailing semicolon). -/
def sDropRight (s : String) (n : Nat) : String :=
  String.mk (s.data.take (s.data.length - n))

/-- `str::contains(char)`. -/
def sContainsChar (s : String) (c : Char) : Bool := s.data.any (fun d => d = c)

/-- Greedy left-to-right split on a non-empty separator (fuel-indexed;
the fuel bound always suffices). -/
def splitOnAuxF (sep : List Char) : Nat → List Char → List Char → List (List Char)
  | 0, _, acc => [acc.reverse]
  | f + 1, cs, acc =>
    if sep.isPrefixOf cs then
      acc.reverse :: splitOnAuxF sep f (cs.drop sep.length) []
    else
      match cs with
      | [] => [acc.reverse]
      | c :: r => splitOnAuxF sep f r (c :: acc)

/-- `str::split` / `String::split_on` for a non-empty separator. -/
def sSplitOn (s sep : String) : List String :=
  if sep.data.isEmpty then [s]
  else (splitOnAuxF sep.data (s.data.length + 1) s.data []).map String.mk

/-- `str::replace` (all occurrences). -/
def sReplace (s pat rep : String) : String :=
  if pat.data.isEmpty then s
  else String.mk (List.intercalate rep.data (splitOnAuxF pat.data (s.data.length + 1) s.data []))

/-- Lexicographic order on character lists (code-point order, which on
UTF-8 strings coincides with Rust's byte-wise `str` ordering). -/
def lexLe : List Char → List Char → Bool
  | [], _ => true
  | _ :: _, [] => false
  | a :: as, b :: bs => if a = b then lexLe as bs else decide (a < b)

/-- `str::cmp(..) != Greater`. -/
def sLe (a b : String) : Bool := lexLe a.data b.data

/-- JSON values, modelling `serde_json::Value` at its interface.  Objects are
association lists (lookup by first occurrence); only integer numbers are
modelled, which covers every value the claims touch. -/
inductive Json where
  | null : Json
  | bool (b : Bool) : Json
  | num (n : Int) : Json
  | str (s : String) : Json
  | arr (elems : List Json) : Json
  | obj (fields : List (String × Json)) : Json

/-- `Value::as_object()` — `Some` exactly on objects. -/
def Json.asObject? : Json → Option (List (String × Json))
  | Json.obj m => some m
  | _ => none

/-- `Value::get(key)` for a string key: field lookup on objects, `None` elsewhere. -/
def Json.get? : Json → String → Option Json
  | Json.obj m, k => List.lookup k m
  | _, _ => none

/-- `&value[key]` (the `Index<&str>` impl of `serde_json::Value`):
missing keys and non-objects index to `Null` rather than failing. -/
def jsonIndexStr (v : Json) (k : String) : Json :=
  match v with
  | Json.obj m => (List.lookup k m).getD Json.null
  | _ => Json.null

/-- `find_object` from `lib.rs`: descend a fixed key path with `get`,
then `as_object()` at the end. -/
def find_object (v : Json) : List String → Option (List (String × Json))
  | [] => v.asObject?
  | k :: rest =>
    match v.get? k with
    | some v2 => find_object v2 rest
    | none => none

/-- `get_string_value` from `lib.rs`: `obj.get(key)?.as_str()`. -/
def get_string_value (obj : List (String × Json)) (key : String) : Option String :=
  match List.lookup key obj with
  | some (Json.str s) => some s
  | _ => none

mutual
/-- `find_object_paths` from `lib.rs`: depth-first walk pushing the current
key path once for each object that contains all of `keysToFind`.  Array
elements are visited without extending the path (the source pushes no
index component for arrays). -/
def find_object_paths (v : Json) (keysToFind : List String) (currentPath : List String) :
    List (List String) :=
  match v with
  | Json.obj m =>
      (if keysToFind.all (fun k => (List.lookup k m).isSome) then [currentPath] else []) ++
        fop_fields m keysToFind currentPath
  | Json.arr a => fop_elems a keysToFind currentPath
  | _ => []

/-- Field loop of `find_object_paths` (`for (key, nested_value) in map`). -/
def fop_fields (fields : List (String × Json)) (keysToFind : List String)
    (currentPath : List String) : List (List String) :=
  match fields with
  | [] => []
  | (k, v) :: rest =>
      find_object_paths v keysToFind (currentPath ++ [k]) ++ fop_fields rest keysToFind currentPath

/-- Array loop of `find_object_paths` (`for nested_value in arr`). -/
def fop_elems (elems : List Json) (keysToFind : List String) (currentPath : List String) :
    List (List String) :=
  match elems with
  | [] => []
  | v :: rest =>
      find_object_paths v keysToFind currentPath ++ fop_elems rest keysToFind currentPath
end

/-- `DataSource` from `lib.rs`: a known location of quote data inside the
`__PRELOADED_STATE__` tree. -/
structure DataSource where
  path : List String
  mappings : List (String × String)
  strip_suffix : Bool

/-- First entry of `get_data_sources`: the equity price-board schema. -/
def stock_schema : DataSource :=
  { path := ["mainStocksPriceBoard", "priceBoard"],
    mappings :=
      [("code", "code"), ("name", "name"), ("price", "price"),
       ("price_change", "priceChange"), ("price_change_rate", "priceChangeRate"),
       ("update_time", "priceDateTime")],
    strip_suffix := true }

/-- `get_data_sources` from `lib.rs`: the three static schema sources. -/
def get_data_sources : List DataSource :=
  [ stock_schema,
    { path := ["mainCurrencyPriceBoard", "currencyPrices"],
      mappings :=
        [("code", "currencyPairCode"), ("name", "currencyPairName"), ("price", "bid"),
         ("price_change", "priceChange"), ("price_change_rate", "priceChangeRate"),
         ("update_time", "priceUpdateTime")],
      strip_suffix := false },
    { path := ["mainDomesticIndexPriceBoard", "indexPrices"],
      mappings :=
        [("code", "code"), ("name", "name"), ("price", "price"),
         ("price_change", "changePrice"), ("price_change_rate", "changePriceRate"),
         ("update_time", "japanUpdateTime")],
      strip_suffix := false } ]

/-- `code.split('.').next().unwrap_or(code)` guarded by the schema's
suffix-stripping flag: the requested-code normalization of `lib.rs`. -/
def normalizeCode (strip : Bool) (code : String) : String :=
  if strip then (((sSplitOn code ".").headD code)) else code

/-- `Map::insert` modelled on association lists: replace the value at an
existing key in place, otherwise append.  The claims read the result only
through `List.lookup`, which this models faithfully. -/
def insertKV : List (String × Json) → String → Json → List (String × Json)
  | [], k, v => [(k, v)]
  | (k0, v0) :: rest, k, v =>
      if k0 = k then (k0, v) :: rest else (k0, v0) :: insertKV rest k v

/-- Minimal JSON string escaping used by `Value::to_string()` (quote,
backslash and the common control characters; other control characters,
which no claim touches, are kept verbatim). -/
def escapeJsonChar (c : Char) : List Char :=
  if c = '"' then ['\\', '"']
  else if c = '\\' then ['\\', '\\']
  else if c = '\n' then ['\\', 'n']
  else if c = '\t' then ['\\', 't']
  else if c = '\r' then ['\\', 'r']
  else [c]

def escapeJsonString (s : String) : String :=
  String.mk (s.toList.foldr (fun c acc => escapeJsonChar c ++ acc) [])

mutual
/-- `Value::to_string()`: compact serialization of a JSON value. -/
def jsonSerialize : Json → String
  | Json.null => "null"
  | Json.bool b => if b then "true" else "false"
  | Json.num n => toString n
  | Json.str s => "\"" ++ escapeJsonString s ++ "\""
  | Json.arr a => "[" ++ serializeElems a ++ "]"
  | Json.obj m => "\x7b" ++ serializeFields m ++ "\x7d"

def serializeElems : List Json → String
  | [] => ""
  | [v] => jsonSerialize v
  | v :: rest => jsonSerialize v ++ "," ++ serializeElems rest

def serializeFields : List (String × Json) → String
  | [] => ""
  | [(k, v)] => "\"" ++ escapeJsonString k ++ "\":" ++ jsonSerialize v
  | (k, v) :: rest =>
      "\"" ++ escapeJsonString k ++ "\":" ++ jsonSerialize v ++ "," ++ serializeFields rest
end

/-- `str::trim_matches('"')`: strip every leading and trailing quote char. -/
def trimQuoteChars (s : String) : String :=
  String.mk (((s.toList.dropWhile (· = '"')).reverse.dropWhile (· = '"')).reverse)

/-- `value.to_string().trim_matches('"')` — the display normalization of
field values in both the worker and the CLI extractor. -/
def jsonDisplay (v : Json) : String :=
  trimQuoteChars (jsonSerialize v)

/-- The result-map construction shared by the predefined-schema branch
(`mappings = source.mappings`, `tag = "json_predefined"`) and the generic
fallback branch (`mappings = fallback_mappings`, `tag = "json_fallback"`)
of `process_json_data`. -/
def build_step (code : String) (mappings : List (String × String))
    (targetObj : List (String × Json)) (acc : List (String × Json)) (key : String) :
    List (String × Json) :=
  match List.lookup key mappings with
  | some jsonKey =>
    match List.lookup jsonKey targetObj with
    | some value => insertKV acc key (Json.str (jsonDisplay value))
    | none => acc
  | none => if key = "code" then insertKV acc "code" (Json.str code) else acc

def build_results (code : String) (keys : Option (List String))
    (mappings : List (String × String)) (tag : String)
    (targetObj : List (String × Json)) : List (String × Json) :=
  let base : List (String × Json) :=
    match keys with
    | some keysVec => keysVec.foldl (build_step code mappings targetObj) []
    | none => insertKV targetObj "code" (Json.str code)
  insertKV (insertKV base "status" (Json.str "OK")) "source" (Json.str tag)

/-- The `fallback_mappings` table of `process_json_data` (no `code` entry). -/
def fallback_mappings : List (String × String) :=
  [("name", "name"), ("price", "price"), ("price_change", "priceChange"),
   ("price_change_rate", "priceChangeRate"), ("update_time", "priceDateTime")]

/-- One iteration of the predefined-schema loop of `process_json_data`:
resolve the schema path, read the code field, compare against the
(suffix-normalized) requested code, and on success build the tagged result. -/
def try_source (code : String) (data : Json) (keys : Option (List String))
    (src : DataSource) : Option (List (String × Json)) :=
  (find_object data src.path).bind (fun targetObj =>
    (List.lookup "code" src.mappings).bind (fun jsonCodeKey =>
      (get_string_value targetObj jsonCodeKey).bind (fun foundCode =>
        if sTrim foundCode = normalizeCode src.strip_suffix code then
          some (build_results code keys src.mappings "json_predefined" targetObj)
        else none)))

/-- The predefined-schema loop: first matching source wins. -/
def try_sources (code : String) (data : Json) (keys : Option (List String)) :
    List DataSource → Option (List (String × Json))
  | [] => none
  | src :: rest =>
    match try_source code data keys src with
    | some r => some r
    | none => try_sources code data keys rest

/-- The generic fallback loop of `process_json_data`: re-descend the tree
along each discovered path with `&value[key]` indexing, check the code
value, and build the `json_fallback`-tagged result on the first match. -/
def try_generic (code : String) (data : Json) (keys : Option (List String)) :
    List (List String) → Option (List (String × Json))
  | [] => none
  | path :: rest =>
    let targetObj := path.foldl jsonIndexStr data
    match targetObj.asObject? with
    | some objMap =>
      match get_string_value objMap "code" with
      | some foundCode =>
        if sTrim foundCode = normalizeCode true code then
          some (build_results code keys fallback_mappings "json_fallback" objMap)
        else try_generic code data keys rest
      | none => try_generic code data keys rest
    | none => try_generic code data keys rest

/-- `process_json_data` from `lib.rs`: predefined schemas first, then the
generic key search over every path to an object containing `code`. -/
def process_json_data (code : String) (data : Json) (keys : Option (List String)) :
    Except String (List (String × Json)) :=
  match try_sources code data keys get_data_sources with
  | some r => Except.ok r
  | none =>
    match try_generic code data keys (find_object_paths data ["code"] []) with
    | some r => Except.ok r
    | none => Except.error "Could not find matching data in JSON."

/-- Whitespace skipping of the JSON grammar. -/
def skipWs : List Char → List Char
  | [] => []
  | c :: rest =>
    if c = ' ' || c = '\n' || c = '\t' || c = '\r' then skipWs rest else c :: rest

/-- String-literal body of the JSON grammar (consumes up to the closing
quote; the common escapes of the inputs at hand are decoded). -/
def jsonStringBody : Nat → List Char → List Char → Option (String × List Char)
  | 0, _, _ => none
  | _ + 1, _, [] => none
  | f + 1, acc, c :: rest =>
    if c = '"' then some (String.mk acc.reverse, rest)
    else if c = '\\' then
      match rest with
      | [] => none
      | e :: rest2 =>
        if e = '"' then jsonStringBody f ('"' :: acc) rest2
        else if e = '\\' then jsonStringBody f ('\\' :: acc) rest2
        else if e = '/' then jsonStringBody f ('/' :: acc) rest2
        else if e = 'n' then jsonStringBody f ('\n' :: acc) rest2
        else if e = 't' then jsonStringBody f ('\t' :: acc) rest2
        else if e = 'r' then jsonStringBody f ('\r' :: acc) rest2
        else none
    else jsonStringBody f (c :: acc) rest

/-- Digit-run scanner for JSON numbers. -/
def takeDigits : List Char → List Char × List Char
  | [] => ([], [])
  | c :: rest =>
    if c.isDigit then
      let (ds, r) := takeDigits rest
      (c :: ds, r)
    else ([], c :: rest)

/-- Digit characters to a natural number. -/
def digitsToNat (ds : List Char) : Nat :=
  ds.foldl (fun acc c => 10 * acc + (c.toNat - '0'.toNat)) 0

mutual
/-- Modelled from the spec: `ParseStructured(text) -> StructuredTree | ParseError`,
the interface of the external `serde_json::from_str`.  A fuel-indexed
recursive-descent parse of the JSON grammar (integer numbers; `\u` escapes
and number fractions/exponents, which no claim touches, are rejected).
Malformed or truncated input yields `none`. -/
def jsonParseVal : Nat → List Char → Option (Json × List Char)
  | 0, _ => none
  | f + 1, cs =>
    match skipWs cs with
    | [] => none
    | c :: rest =>
      if c = '"' then
        match jsonStringBody f [] rest with
        | some (s, r) => some (Json.str s, r)
        | none => none
      else if c = '[' then
        match skipWs rest with
        | ']' :: r2 => some (Json.arr [], r2)
        | other => jsonParseElems f other []
      else if c = '\x7b' then
        match skipWs rest with
        | '\x7d' :: r2 => some (Json.obj [], r2)
        | other => jsonParseFields f other []
      else if c = 't' then
        match rest with
        | 'r' :: 'u' :: 'e' :: r => some (Json.bool true, r)
        | _ => none
      else if c = 'f' then
        match rest with
        | 'a' :: 'l' :: 's' :: 'e' :: r => some (Json.bool false, r)
        | _ => none
      else if c = 'n' then
        match rest with
        | 'u' :: 'l' :: 'l' :: r => some (Json.null, r)
        | _ => none
      else if c = '-' then
        let (ds, r) := takeDigits rest
        if ds.isEmpty then none else some (Json.num (-(digitsToNat ds : Int)), r)
      else if c.isDigit then
        let (ds, r) := takeDigits (c :: rest)
        some (Json.num (digitsToNat ds), r)
      else none

/-- Element list of a JSON array (after the opening bracket). -/
def jsonParseElems : Nat → List Char → List Json → Option (Json × List Char)
  | 0, _, _ => none
  | f + 1, cs, acc =>
    match jsonParseVal f cs with
    | none => none
    | some (v, r) =>
      match skipWs r with
      | ',' :: r2 => jsonParseElems f r2 (v :: acc)
      | ']' :: r2 => some (Json.arr (v :: acc).reverse, r2)
      | _ => none

/-- Field list of a JSON object (after the opening brace). -/
def jsonParseFields : Nat → List Char → List (String × Json) → Option (Json × List Char)
  | 0, _, _ => none
  | f + 1, cs, acc =>
    match skipWs cs with
    | '"' :: r0 =>
      match jsonStringBody f [] r0 with
      | none => none
      | some (k, r1) =>
        match skipWs r1 with
        | ':' :: r2 =>
          match jsonParseVal f r2 with
          | none => none
          | some (v, r3) =>
            match skipWs r3 with
            | ',' :: r4 => jsonParseFields f r4 ((k, v) :: acc)
            | '\x7d' :: r4 => some (Json.obj ((k, v) :: acc).reverse, r4)
            | _ => none
        | _ => none
    | _ => none
end

/-- `serde_json::from_str` at its interface: whole-input parse. -/
def jsonParse (s : String) : Option Json :=
  match jsonParseVal (s.data.length + 4) s.toList with
  | some (v, r) => if skipWs r = [] then some v else none
  | none => none

/-- CSS identifier characters (ASCII subset used by the built-in selectors). -/
def isIdentChar (c : Char) : Bool :=
  c.isAlpha || c.isDigit || c = '_' || c = '-'

def isIdentStart (c : Char) : Bool :=
  c.isAlpha || c = '_' || c = '-'

/-- Attribute-selector blocks after a type selector:
a sequence of bracket groups of the forms seen in CSS compound selectors,
with single-quoted values. -/
def attrBlocksOk : Nat → List Char → Bool
  | 0, _ => false
  | _ + 1, [] => true
  | f + 1, '[' :: rest =>
    let (id1, r1) := rest.span isIdentChar
    if id1.isEmpty then false
    else
      match r1 with
      | ']' :: r2 => attrBlocksOk f r2
      | '*' :: '=' :: '\'' :: r2 =>
        let (_, r3) := r2.span (fun c => !(c = '\''))
        match r3 with
        | '\'' :: ']' :: r4 => attrBlocksOk f r4
        | _ => false
      | '=' :: '\'' :: r2 =>
        let (_, r3) := r2.span (fun c => !(c = '\''))
        match r3 with
        | '\'' :: ']' :: r4 => attrBlocksOk f r4
        | _ => false
      | _ => false
  | _ + 1, _ => false

/-- One compound selector: a type selector (identifier or the universal
selector) and/or attribute blocks. -/
def compoundOk (cs : List Char) : Bool :=
  match cs with
  | [] => false
  | '*' :: rest => attrBlocksOk (rest.length + 1) rest
  | '[' :: _ => attrBlocksOk (cs.length + 1) cs
  | c :: _ =>
    if isIdentStart c then
      let (_, r) := cs.span isIdentChar
      attrBlocksOk (r.length + 1) r
    else false

/-- Modelled from the spec: §4.5's verifier reports "whether the query is
syntactically valid" for the external `Selector::parse` (scraper crate).
A selector list is comma-separated complex selectors; a complex selector
is whitespace-separated compound selectors — the grammar fragment covering
every built-in selector string of this repository. -/
def selectorOk (s : String) : Bool :=
  let parts := sSplitOn s ","
  !parts.isEmpty && parts.all (fun p =>
    let words := (sSplitOn p " ").filter (fun w => !(sIsEmpty w))
    !words.isEmpty && words.all (fun w => compoundOk w.toList))

/-- Outcome of one worker request body: a result map, a reported error, or
a panic (the modelled `unwrap` on `Selector::parse`). -/
inductive WorkerOutcome where
  | ok (m : List (String × Json))
  | err (e : String)
  | panicked

/-- The built-in field-to-selector table of `process_dom_data` (`lib.rs`). -/
def selector_map : List (String × String) :=
  [("name", "h1"),
   ("price", "div[class*='_CommonPriceBoard__priceBlock'] span[class*='_StyledNumber__value']"),
   ("price_change", "span[class*='_PriceChangeLabel__primary'] span[class*='_StyledNumber__value']"),
   ("price_change_rate", "span[class*='_PriceChangeLabel__secondary'] span[class*='_StyledNumber__value']"),
   ("update_time", "li[class*='_CommonPriceBoard__time'] time, span[class*='_Time']")]

/-- Default key set of `process_dom_data` when the request names none. -/
def default_dom_keys : List String :=
  ["code", "name", "price", "price_change", "price_change_rate", "update_time"]

/-- The key loop of `process_dom_data`.  The document is an oracle
`firstMatch` giving, per selector string, the trimmed text of the first
matching element (`document.select(..).next().map(text)`), modelling the
external DOM engine at its interface.  `none` models the `unwrap` panic on
an invalid selector string. -/
def dom_scan (firstMatch : String → Option String) (code : String) :
    List String → List (String × Json) → Option (List (String × Json))
  | [], results => some results
  | key :: rest, results =>
    if key = "code" then
      dom_scan firstMatch code rest (insertKV results key (Json.str code))
    else
      match List.lookup key selector_map with
      | some selStr =>
        if selectorOk selStr then
          match firstMatch selStr with
          | some txt => dom_scan firstMatch code rest (insertKV results key (Json.str txt))
          | none => dom_scan firstMatch code rest results
        else none
      | none => dom_scan firstMatch code rest results

/-- Key-membership test on the result map (`results.contains_key`). -/
def containsKey (m : List (String × Json)) (k : String) : Bool :=
  (List.lookup k m).isSome

/-- `process_dom_data` from `lib.rs`: CSS-selector fallback extraction with
the essential-field checks on `name` and `price`. -/
def process_dom_data (code : String) (firstMatch : String → Option String)
    (keys : Option (List String)) : WorkerOutcome :=
  let keysToProcess := keys.getD default_dom_keys
  match dom_scan firstMatch code keysToProcess [] with
  | none => WorkerOutcome.panicked
  | some results =>
    if keysToProcess.contains "name" && !(containsKey results "name") then
      WorkerOutcome.err "Failed to scrape essential data (name) from DOM."
    else if keysToProcess.contains "price" && !(containsKey results "price") then
      WorkerOutcome.err "Failed to scrape essential data (price) from DOM."
    else
      WorkerOutcome.ok
        (insertKV (insertKV results "status" (Json.str "OK")) "source"
          (Json.str "dom_fallback"))

/-- The post-fetch dispatch of `fetch_single_code` (`lib.rs` lines 79-104).
`capture` is the regex engine's capture group 1 for
`window.__PRELOADED_STATE__\s*=\s*(.*?)</script>` (modelled at its
interface): `some` when the structured-data block is present.  A present
block is trimmed, stripped of a trailing semicolon and parsed; parse
failure reports an error (the serde detail suffix of the Rust message is
elided).  Only an absent block falls back to the DOM path. -/
def cleanCapture (cap : String) : String :=
  let s0 := sTrim cap
  if sEndsWith s0 ";" then sDropRight s0 1 else s0

/-- `fetch_single_code`'s dispatch on the extracted capture (see
`cleanCapture` above for the trimming). -/
def handle_body (code : String) (capture : Option String)
    (firstMatch : String → Option String) (keys : Option (List String)) : WorkerOutcome :=
  match capture with
  | some jsonMatch =>
    match jsonParse (cleanCapture jsonMatch) with
    | some data =>
      match process_json_data code data keys with
      | Except.ok m => WorkerOutcome.ok m
      | Except.error e => WorkerOutcome.err e
    | none => WorkerOutcome.err "Failed to parse JSON"
  | none => process_dom_data code firstMatch keys

/-- `RankedCandidate` from `selector.rs`: text, score (u32; every score the
scanner produces stays far from the u32 bounds, so `Nat` models it), and a
provenance string. -/
structure RankedCandidate where
  text : String
  score : Nat
  reason : String
deriving DecidableEq, Repr

/-- One DOM element at the interface the scanner consumes: tag name,
optional `class` attribute and collected (not yet trimmed) text. -/
structure Elem where
  name : String
  classAttr : Option String
  text : String

/-- `str::contains(&str)`: substring test. -/
def containsSubstr (s pat : String) : Bool :=
  1 < (sSplitOn s pat).length

/-- Strip a character class from both ends (`str::trim_matches`). -/
def trimCharPred (p : Char → Bool) (s : String) : String :=
  String.mk (((s.toList.dropWhile p).reverse.dropWhile p).reverse)

def trimParens (s : String) : String :=
  trimCharPred (fun c => c = '(' || c = ')') s

/-- Case-insensitive ASCII comparison against a literal (for `inf`/`nan`). -/
def lowerEq (cs : List Char) (pat : List Char) : Bool :=
  cs.map Char.toLower == pat

/-- Exponent tail of the f64 grammar; returns the all-zero-mantissa flag
through unchanged when the tail is well-formed and exhausts the input. -/
def f64ExpTail (cs : List Char) (z : Bool) : Option Bool :=
  match cs with
  | [] => some z
  | c :: r =>
    if c = 'e' || c = 'E' then
      let r2 := match r with
        | s :: rr => if s = '+' || s = '-' then rr else s :: rr
        | [] => []
      let (ds, r3) := takeDigits r2
      if ds.isEmpty || !r3.isEmpty then none else some z
    else none

/-- Finite-number body of Rust's `f64::from_str` grammar (after the sign):
digits with an optional fraction, or a leading-dot fraction, with an
optional exponent.  Returns whether every mantissa digit is zero. -/
def f64Body (cs : List Char) : Option Bool :=
  let (intDs, r1) := takeDigits cs
  match r1 with
  | '.' :: r2 =>
    let (fracDs, r3) := takeDigits r2
    if intDs.isEmpty && fracDs.isEmpty then none
    else f64ExpTail r3 ((intDs ++ fracDs).all (fun c => c = '0'))
  | _ =>
    if intDs.isEmpty then none else f64ExpTail r1 (intDs.all (fun c => c = '0'))

/-- Sign split of the f64 grammar. -/
def f64SignSplit (cs : List Char) : Bool × List Char :=
  match cs with
  | '+' :: r => (false, r)
  | '-' :: r => (true, r)
  | r => (false, r)

/-- `text.parse::<f64>().is_ok()` modelled on Rust's `f64::from_str`
grammar (`inf`/`infinity`/`nan` literals included). -/
def parsesAsF64 (s : String) : Bool :=
  let (_, body) := f64SignSplit s.toList
  lowerEq body ['i', 'n', 'f'] || lowerEq body ['i', 'n', 'f', 'i', 'n', 'i', 't', 'y'] ||
    lowerEq body ['n', 'a', 'n'] || (f64Body body).isSome

/-- `text.parse::<f64>().map(|p| p >= 0.0)` on the same grammar: `nan`
compares false, `-0` counts as non-negative (IEEE); exponents beyond the
f64 range (which underflow to a signed zero) are not modelled — no
scanned page text and no claim touches them. -/
def f64ParseNonNeg (s : String) : Bool :=
  let (neg, body) := f64SignSplit s.toList
  if lowerEq body ['n', 'a', 'n'] then false
  else if lowerEq body ['i', 'n', 'f'] || lowerEq body ['i', 'n', 'f', 'i', 'n', 'i', 't', 'y'] then
    !neg
  else
    match f64Body body with
    | some allZero => !neg || allZero
    | none => false

/-- Grouping step of `deduplicate_and_sort_candidates`: the
`HashMap::entry(..).and_modify(..).or_insert(..)` call keyed by candidate
text, keeping the entry with the strictly higher score (first seen wins
ties).  Association-list keyed map: iteration order is irrelevant because
the final sort totally orders entries with distinct texts. -/
def upsertCandidate : List (String × RankedCandidate) → RankedCandidate →
    List (String × RankedCandidate)
  | [], c => [(c.text, c)]
  | (k, e) :: rest, c =>
      if k = c.text then (k, if c.score > e.score then c else e) :: rest
      else (k, e) :: upsertCandidate rest c

def candidateMap (cs : List RankedCandidate) : List (String × RankedCandidate) :=
  cs.foldl upsertCandidate []

/-- The sort comparator of `deduplicate_and_sort_candidates`:
`b.score.cmp(&a.score).then_with(|| a.text.cmp(&b.text))` — descending
score, ascending text. -/
def candLE (a b : RankedCandidate) : Bool :=
  decide (b.score < a.score) || (a.score == b.score && sLe a.text b.text)

def candLEP (a b : RankedCandidate) : Prop := candLE a b = true

instance : DecidableRel candLEP :=
  fun a b => inferInstanceAs (Decidable (candLE a b = true))

/-- `deduplicate_and_sort_candidates` from `selector.rs`.  Rust's stable
`sort_by` is rendered as insertion sort: the comparator never equates two
distinct retained entries (their texts differ), so every correct sort
produces the same list. -/
def deduplicate_and_sort_candidates (cs : List RankedCandidate) : List RankedCandidate :=
  List.insertionSort candLEP ((candidateMap cs).map Prod.snd)

/-- `DiscoveredData` from `selector.rs`. -/
structure DiscoveredData where
  code : String
  url : String
  name_candidates : List RankedCandidate
  price_candidates : List RankedCandidate
  change_abs_candidates : List RankedCandidate
  change_pct_candidates : List RankedCandidate
  update_time_candidates : List RankedCandidate

/-- One guarded `if let Ok(sel) = Selector::parse(..) { for element in
document.select(&sel) { .. } }` loop: collect the candidates an element
filter accepts, in document order.  `selectAll` is the DOM oracle giving
the matched elements of a selector string. -/
def collectCands (selectAll : String → List Elem) (sel : String)
    (f : Elem → Option RankedCandidate) : List RankedCandidate :=
  if selectorOk sel then (selectAll sel).filterMap f else []

/-- The eight price selector patterns tried by `discover_data`. -/
def price_selector_strings : List String :=
  ["span[class*='PriceBoard__price'] span[class*='StyledNumber__value']",
   "[class*='price'], [class*='Price']",
   "span[class*='value'], div[class*='value']",
   "[class*='board'] span, [class*='Board'] span",
   "[data-field='regularMarketPrice']",
   "[class*='quote'], [class*='Quote']",
   "span[class*='last'], div[class*='last']",
   "[class*='current'], [class*='Current']"]

/-- The score computation of `discover_data`'s price loop (base 50, +100
for the dedicated pattern, +30 thousands separator, +20/+10 class hints,
-40 code/symbol penalty; the subtraction never crosses zero). -/
def equityPriceScore (selStr : String) (text : String) (classAttr : String) : Nat :=
  let s := 50
  let s := if selStr = "span[class*='PriceBoard__price'] span[class*='StyledNumber__value']"
    then s + 100 else s
  let s := if sContainsChar text ',' then s + 30 else s
  let s := if containsSubstr classAttr "value" then s + 20 else s
  let s := if containsSubstr classAttr "large" then s + 10 else s
  if containsSubstr classAttr "code" || containsSubstr classAttr "symbol" then s - 40 else s

/-- The elements matched by the primary change label selector in
`discover_data`. -/
def equity_primary_els (selectAll : String → List Elem) : List Elem :=
  if selectorOk "[class*='PriceChangeLabel__primary']" then
    selectAll "[class*='PriceChangeLabel__primary']"
  else []

/-- The absolute-change candidates `discover_data` collects. -/
def equity_change_abs_raw (selectAll : String → List Elem) : List RankedCandidate :=
  (equity_primary_els selectAll).filterMap (fun el =>
    let t := sTrim el.text
    if (sStartsWith t "+" || sStartsWith t "-") && t.data.any Char.isDigit then
      some ⟨t, 100, "Found in primary change label"⟩
    else none)

/-- The change-rate candidates the dedicated pattern of `discover_data`
collects. -/
def equity_change_pct_primary (selectAll : String → List Elem) : List RankedCandidate :=
  (equity_primary_els selectAll).filterMap (fun el =>
    let t := sTrim el.text
    if sContainsChar t '%' && sContainsChar t '(' then
      some ⟨t, 100, "Found in secondary change label"⟩
    else none)

/-- The change-rate candidates the broader fallback of `discover_data`
collects. -/
def equity_change_pct_fallback (selectAll : String → List Elem) : List RankedCandidate :=
  (["[class*='change']", "[class*='percent']", "span", "div"]).foldl (fun acc selStr =>
    acc ++ collectCands selectAll selStr (fun el =>
      let t := sTrim el.text
      if sContainsChar t '%' &&
          (sStartsWith t "+" || sStartsWith t "-" || t.data.any Char.isDigit) then
        some ⟨t, 50, "Broader fallback: found '%' in element with selector: " ++ selStr⟩
      else none)) []

/-- The change-rate list of `discover_data` before dedup (fallback only
when the dedicated pattern found nothing). -/
def equity_change_pct_raw (selectAll : String → List Elem) : List RankedCandidate :=
  if (equity_change_pct_primary selectAll).isEmpty then
    equity_change_pct_fallback selectAll
  else equity_change_pct_primary selectAll

/-- `discover_data` from `selector.rs` (equity pipeline) over a fetched
page modelled by the `selectAll` oracle.  The single loop over the primary
change label that pushes into the two change lists is rendered as two
passes over the same element list — the per-list contents and order are
identical. -/
def discover_data (selectAll : String → List Elem) (code : String) : DiscoveredData :=
  let url := "https://finance.yahoo.co.jp/quote/" ++ code
  let titleText := ((if selectorOk "title" then selectAll "title" else []).head?).map
    (fun el => el.text)
  let baseName := match titleText with
    | some t => sTrim ((sSplitOn (sSplitOn ((sSplitOn t "【").headD "") "(" |>.headD "") "：").headD "")
    | none => ""
  let nameTitle : List RankedCandidate := match titleText with
    | some t => if sIsEmpty baseName then [] else [⟨t, 50, "Original <title> text"⟩]
    | none => []
  let headingSel := if selectorOk "h1, h2" then "h1, h2"
    else if selectorOk "h1" then "h1" else "*"
  let nameHead : List RankedCandidate := if sIsEmpty baseName then [] else
    (selectAll headingSel).filterMap (fun el =>
      let t := sTrim el.text
      if sIsEmpty t then none
      else if t = baseName then some ⟨t, 110, "Exact match in <" ++ el.name ++ ">"⟩
      else if containsSubstr t baseName then
        some ⟨t, 100, "Contains base name in <" ++ el.name ++ ">"⟩
      else none)
  let priceMain := price_selector_strings.foldl (fun acc selStr =>
    acc ++ collectCands selectAll selStr (fun el =>
      let t := sTrim el.text
      if t.data.any Char.isDigit then
        if f64ParseNonNeg (sReplace t "," "") then
          let ca := el.classAttr.getD ""
          some ⟨t, equityPriceScore selStr t ca,
                "Found in element with class: " ++ ca ++ " (selector: " ++ selStr ++ ")"⟩
        else none
      else none)) []
  let priceCands := if priceMain.isEmpty then
      collectCands selectAll "span, div" (fun el =>
        let t := sTrim el.text
        if t.data.any Char.isDigit then
          if f64ParseNonNeg (sReplace t "," "") then
            some ⟨t, 10, "Fallback: found number in " ++ el.name⟩
          else none
        else none)
    else priceMain
  let absCands := equity_change_abs_raw selectAll
  let pctCands := equity_change_pct_raw selectAll
  let timeCands := (["ul[class*='PriceBoard__times'] time", "time[class*='timestamp']"]).foldl
    (fun acc selStr =>
      acc ++ collectCands selectAll selStr (fun el =>
        let t := sTrim el.text
        if sIsEmpty t then none
        else some ⟨t, 100, "Found in time element with selector: " ++ selStr⟩)) []
  { code := code, url := url,
    name_candidates := deduplicate_and_sort_candidates (nameTitle ++ nameHead),
    price_candidates := deduplicate_and_sort_candidates priceCands,
    change_abs_candidates := deduplicate_and_sort_candidates absCands,
    change_pct_candidates := deduplicate_and_sort_candidates pctCands,
    update_time_candidates := deduplicate_and_sort_candidates timeCands }

/-- `Value::as_str()`. -/
def Json.asStr? : Json → Option String
  | Json.str s => some s
  | _ => none

/-- `priceBoard` of the parsed `__PRELOADED_STATE__` in
`discover_index_data`. -/
def index_price_board (preState : Option Json) : Option Json :=
  preState.bind (fun ps => ps.get? "priceBoard")

/-- The price candidates the index pipeline reads from the parsed state. -/
def index_json_price (preState : Option Json) : List RankedCandidate :=
  match index_price_board preState with
  | some b =>
    match (b.get? "price").bind Json.asStr? with
    | some p => [⟨p, 100, "Found in __PRELOADED_STATE__ (price)"⟩]
    | none => []
  | none => []

/-- The absolute-change candidates the index pipeline reads from the
parsed state. -/
def index_json_abs (preState : Option Json) : List RankedCandidate :=
  match index_price_board preState with
  | some b =>
    match (b.get? "change").bind Json.asStr? with
    | some cv =>
      if sIsEmpty cv then [] else [⟨cv, 100, "Found in __PRELOADED_STATE__ (change)"⟩]
    | none => []
  | none => []

/-- The change-rate candidates the index pipeline reads from the parsed
state. -/
def index_json_pct (preState : Option Json) : List RankedCandidate :=
  match index_price_board preState with
  | some b =>
    match (b.get? "changePercent").bind Json.asStr? with
    | some cv =>
      if sIsEmpty cv then []
      else [⟨trimParens cv, 100, "Found in __PRELOADED_STATE__ (changePercent)"⟩]
    | none => []
  | none => []

/-- The DOM fallback for the index pipeline's absolute change. -/
def index_abs_fallback (selectAll : String → List Elem) : List RankedCandidate :=
  collectCands selectAll
    "span[class*='_PriceChangeLabel__primary'] span[class*='_StyledNumber__value']"
    (fun el =>
      let t := sTrim el.text
      if sStartsWith t "+" || sStartsWith t "-" then
        some ⟨t, 90, "Found in _PriceChangeLabel__primary (fallback)"⟩
      else none)

/-- The absolute-change list of the index pipeline before dedup: the
parsed-state candidates, or the DOM fallback when the structured price,
change or rate came up empty and the change itself is empty. -/
def index_change_abs_raw (preState : Option Json) (selectAll : String → List Elem) :
    List RankedCandidate :=
  if ((index_json_price preState).isEmpty || (index_json_abs preState).isEmpty ||
        (index_json_pct preState).isEmpty) && (index_json_abs preState).isEmpty then
    index_abs_fallback selectAll
  else index_json_abs preState

/-- `discover_index_data` from `selector.rs`.  `preState` models the chain
"the `__PRELOADED_STATE__` regex matched and serde parsed its capture":
`some` carries the parsed tree. -/
def discover_index_data (preState : Option Json) (selectAll : String → List Elem)
    (code : String) : DiscoveredData :=
  let url := "https://finance.yahoo.co.jp/quote/" ++ code
  let jsonName : List RankedCandidate := match preState with
    | some ps =>
      match (jsonIndexStr (jsonIndexStr ps "pageInfo") "title").asStr? with
      | some nameVal =>
        let cleaned := ((sSplitOn nameVal " - ").headD "").trim
        if sIsEmpty cleaned then [] else [⟨cleaned, 100, "Found in __PRELOADED_STATE__ (title)"⟩]
      | none => []
    | none => []
  let pb : Option Json := index_price_board preState
  let jsonPrice := index_json_price preState
  let jsonAbs := index_json_abs preState
  let jsonPct := index_json_pct preState
  let jsonTime : List RankedCandidate := match pb with
    | some b =>
      match ((b.get? "marketTime").or (b.get? "tradeTime")).bind Json.asStr? with
      | some tv =>
        if sIsEmpty tv then []
        else [⟨tv, 100, "Found in __PRELOADED_STATE__ (marketTime/tradeTime)"⟩]
      | none => []
    | none => []
  let nameCands := if jsonName.isEmpty then
      let titleFb : List RankedCandidate :=
        match (if selectorOk "title" then selectAll "title" else []).head? with
        | some el =>
          let cleaned := ((sSplitOn el.text " - ").headD "").trim
          if sIsEmpty cleaned then [] else [⟨cleaned, 80, "Found in <title> tag (fallback)"⟩]
        | none => []
      if titleFb.isEmpty then
        match (if selectorOk "h1" then selectAll "h1" else []).head? with
        | some el =>
          let t := sTrim el.text
          if sIsEmpty t then [] else [⟨t, 70, "Found in <h1> tag (fallback)"⟩]
        | none => []
      else titleFb
    else jsonName
  let needFb := jsonPrice.isEmpty || jsonAbs.isEmpty || jsonPct.isEmpty
  let priceCands := if needFb && jsonPrice.isEmpty then
      let fb1 := collectCands selectAll
        "div[class*='_CommonPriceBoard__priceBlock'] span[class*='_StyledNumber__value']"
        (fun el =>
          let t := sTrim el.text
          if !(sStartsWith t "+") && !(sStartsWith t "-") then
            if f64ParseNonNeg (sReplace t "," "") then
              some ⟨t, 90, "Found in _CommonPriceBoard__priceBlock (fallback)"⟩
            else none
          else none)
      if fb1.isEmpty then
        collectCands selectAll
          "div[class*='_BasePriceBoard__priceInformation'] span, div[class*='_BasePriceBoard__priceInformation'] div"
          (fun el =>
            let t := sTrim el.text
            if t.data.any Char.isDigit && !(sStartsWith t "+") && !(sStartsWith t "-") &&
                !(sContainsChar t '%') then
              if f64ParseNonNeg (sReplace t "," "") then
                some ⟨t, 70, "Broader fallback in _BasePriceBoard__priceInformation: " ++ el.name⟩
              else none
            else none)
      else fb1
    else jsonPrice
  let absCands := index_change_abs_raw preState selectAll
  let pctCands := if needFb && jsonPct.isEmpty then
      collectCands selectAll
        "span[class*='_PriceChangeLabel__secondary'] span[class*='_StyledNumber__value']"
        (fun el =>
          let t := sTrim el.text
          if sIsEmpty t then none
          else some ⟨t, 90, "Found in _PriceChangeLabel__secondary (fallback)"⟩)
    else jsonPct
  let timeCands := if needFb && jsonTime.isEmpty then
      collectCands selectAll "span[class*='_Time'], time[class*='timestamp']" (fun el =>
        let t := sTrim el.text
        if sIsEmpty t then none else some ⟨t, 90, "Found in DOM (fallback)"⟩)
    else jsonTime
  { code := code, url := url,
    name_candidates := deduplicate_and_sort_candidates nameCands,
    price_candidates := deduplicate_and_sort_candidates priceCands,
    change_abs_candidates := deduplicate_and_sort_candidates absCands,
    change_pct_candidates := deduplicate_and_sort_candidates pctCands,
    update_time_candidates := deduplicate_and_sort_candidates timeCands }

/-- `discover_currency_x_data` from `selector.rs` (primary currency page). -/
def discover_currency_x_data (selectAll : String → List Elem) (code : String) :
    DiscoveredData :=
  let url := "https://finance.yahoo.co.jp/quote/" ++ code
  let nameCands : List RankedCandidate :=
    match (if selectorOk "h1" then selectAll "h1" else []).head? with
    | some el =>
      let cleaned := ((sSplitOn el.text " - ").headD "").trim
      if sIsEmpty cleaned then [] else [⟨cleaned, 100, "Found in <h1>"⟩]
    | none => []
  let priceCands := collectCands selectAll "div[class*='rate'] span, span[class*='price']"
    (fun el =>
      let t := sTrim el.text
      if parsesAsF64 (sReplace t "," "") && !(sIsEmpty t) then
        some ⟨t, 90, "Guessed DOM selector for price"⟩
      else none)
  let timeCands := collectCands selectAll "span[class*='time'], time" (fun el =>
    let t := sTrim el.text
    if sIsEmpty t then none else some ⟨t, 90, "Guessed DOM selector for time"⟩)
  { code := code, url := url,
    name_candidates := deduplicate_and_sort_candidates nameCands,
    price_candidates := deduplicate_and_sort_candidates priceCands,
    change_abs_candidates := [],
    change_pct_candidates := [],
    update_time_candidates := deduplicate_and_sort_candidates timeCands }

/-- The change selector of `discover_currency_fx_data`. -/
def fx_change_selector_string : String :=
  "[class*='change'], [class*='diff'], [class*='gain'], [class*='loss'], [class*='up'], [class*='down']"

/-- The elements matched by the currency-FX change selector. -/
def fx_change_els (selectAll : String → List Elem) : List Elem :=
  if selectorOk fx_change_selector_string then selectAll fx_change_selector_string else []

/-- The absolute-change candidates `discover_currency_fx_data` collects. -/
def fx_change_abs_raw (selectAll : String → List Elem) : List RankedCandidate :=
  (fx_change_els selectAll).filterMap (fun el =>
    let t := sTrim el.text
    if (sStartsWith t "+" || sStartsWith t "-") && !(sContainsChar t '%') then
      some ⟨t, 90, "Guessed DOM selector for change abs"⟩
    else none)

/-- The change-rate candidates `discover_currency_fx_data` collects. -/
def fx_change_pct_raw (selectAll : String → List Elem) : List RankedCandidate :=
  (fx_change_els selectAll).filterMap (fun el =>
    let t := sTrim el.text
    if (sStartsWith t "+" || sStartsWith t "-") && sContainsChar t '%' then
      some ⟨t, 90, "Guessed DOM selector for change pct"⟩
    else none)

/-- `discover_currency_fx_data` from `selector.rs` (secondary =FX page).
The single change loop feeding two lists is rendered as two passes. -/
def discover_currency_fx_data (selectAll : String → List Elem) (code : String) :
    DiscoveredData :=
  let url := "https://finance.yahoo.co.jp/quote/" ++ code
  let nameCands : List RankedCandidate :=
    match (if selectorOk "h1" then selectAll "h1" else []).head? with
    | some el =>
      let cleaned := ((sSplitOn el.text " - ").headD "").trim
      if sIsEmpty cleaned then [] else [⟨cleaned, 100, "Found in <h1>"⟩]
    | none => []
  let priceCands := collectCands selectAll "div[class*='rate'] span, span[class*='price']"
    (fun el =>
      let t := sTrim el.text
      if parsesAsF64 (sReplace t "," "") && !(sIsEmpty t) then
        some ⟨t, 90, "Guessed DOM selector for price"⟩
      else none)
  let absCands := fx_change_abs_raw selectAll
  let pctCands := fx_change_pct_raw selectAll
  { code := code, url := url,
    name_candidates := deduplicate_and_sort_candidates nameCands,
    price_candidates := deduplicate_and_sort_candidates priceCands,
    change_abs_candidates := deduplicate_and_sort_candidates absCands,
    change_pct_candidates := deduplicate_and_sort_candidates pctCands,
    update_time_candidates := [] }

/-- The primary-page code of `discover_currency_data`
(`=FX` rewritten to `=X`, everything else kept). -/
def currencyCodeX (code : String) : String :=
  if sEndsWith code "=FX" then sReplace code "=FX" "=X" else code

/-- The secondary-page code of `discover_currency_data`. -/
def currencyCodeFX (code : String) : String :=
  sReplace (currencyCodeX code) "=X" "=FX"

/-- `discover_currency_data` from `selector.rs`: discover on the =X page
and the =FX page (each its own fetched document, hence two oracles) and
merge by the fixed rule. -/
def discover_currency_data (selectX selectFX : String → List Elem) (code : String) :
    DiscoveredData :=
  let dataX := discover_currency_x_data selectX (currencyCodeX code)
  let dataFX := discover_currency_fx_data selectFX (currencyCodeFX code)
  { code := code,
    url := dataX.url,
    name_candidates := dataX.name_candidates,
    price_candidates := dataX.price_candidates,
    change_abs_candidates := dataFX.change_abs_candidates,
    change_pct_candidates := dataFX.change_pct_candidates,
    update_time_candidates := dataX.update_time_candidates }

/-- The instrument-shape routing of `scrape_dynamically`. -/
inductive PipelineChoice where
  | index | currency | equity
deriving DecidableEq

def choose_pipeline (code : String) : PipelineChoice :=
  if sStartsWith code "^" then PipelineChoice.index
  else if sEndsWith code "=X" || sEndsWith code "=FX" then PipelineChoice.currency
  else PipelineChoice.equity

/-- `DataSource` from `yf_quote.rs` (explicit key fields). -/
structure CliDataSource where
  path : List String
  code_key : String
  name_key : String
  price_key : String
  change_key : String
  change_rate_key : String
  time_key : String
  strip_suffix : Bool

/-- `NormalizedData` from `yf_quote.rs`. -/
structure NormalizedData where
  code : String
  name : String
  price : String
  price_change : String
  price_change_rate : String
  update_time : String
deriving DecidableEq, Repr

/-- First entry of `cli_data_sources`: the equity price-board schema. -/
def cli_stock_schema : CliDataSource :=
  { path := ["mainStocksPriceBoard", "priceBoard"],
    code_key := "code", name_key := "name", price_key := "price",
    change_key := "priceChange", change_rate_key := "priceChangeRate",
    time_key := "priceDateTime", strip_suffix := true }

/-- The static data-source table of `yf_quote.rs` `main`. -/
def cli_data_sources : List CliDataSource :=
  [ cli_stock_schema,
    { path := ["mainCurrencyPriceBoard", "currencyPrices"],
      code_key := "currencyPairCode", name_key := "currencyPairName", price_key := "bid",
      change_key := "priceChange", change_rate_key := "priceChangeRate",
      time_key := "priceUpdateTime", strip_suffix := false },
    { path := ["mainDomesticIndexPriceBoard", "indexPrices"],
      code_key := "code", name_key := "name", price_key := "price",
      change_key := "changePrice", change_rate_key := "changePriceRate",
      time_key := "japanUpdateTime", strip_suffix := false } ]

/-- The `NormalizedData` construction of `yf_quote.rs` (lines 172-180):
string fields default to `"N/A"` when absent; the display fields go
through `to_string().trim_matches('"')` with the same default. -/
def cli_normalize (src : CliDataSource) (targetObj : List (String × Json))
    (foundCode : String) : NormalizedData :=
  { code := foundCode,
    name := (get_string_value targetObj src.name_key).getD "N/A",
    price := ((List.lookup src.price_key targetObj).map jsonDisplay).getD "N/A",
    price_change := ((List.lookup src.change_key targetObj).map jsonDisplay).getD "N/A",
    price_change_rate := ((List.lookup src.change_rate_key targetObj).map jsonDisplay).getD "N/A",
    update_time := (get_string_value targetObj src.time_key).getD "N/A" }

/-- One iteration of the schema loop of `yf_quote.rs` `main` (lines
163-185): path descent, code read, normalized comparison, and on success
the `N/A`-defaulted record. -/
def cli_try_source (code : String) (data : Json) (src : CliDataSource) :
    Option NormalizedData :=
  (find_object data src.path).bind (fun targetObj =>
    (get_string_value targetObj src.code_key).bind (fun foundCode =>
      if sTrim foundCode = normalizeCode src.strip_suffix code then
        some (cli_normalize src targetObj foundCode)
      else none))

/-- The schema loop of `yf_quote.rs` `main`: first match wins (`break`). -/
def cli_try_sources (code : String) (data : Json) :
    List CliDataSource → Option NormalizedData
  | [] => none
  | src :: rest =>
    match cli_try_source code data src with
    | some r => some r
    | none => cli_try_sources code data rest

/-- The guard chain of one predefined-schema attempt, as a predicate:
the schema path resolves to an object whose code field (a string) equals,
after trimming, the suffix-normalized requested code. -/
def source_match (code : String) (data : Json) (src : DataSource) : Bool :=
  (((find_object data src.path).bind (fun targetObj =>
    (List.lookup "code" src.mappings).bind (fun jsonCodeKey =>
      (get_string_value targetObj jsonCodeKey).map (fun foundCode =>
        decide (sTrim foundCode = normalizeCode src.strip_suffix code))))).getD false)

/-- Some predefined schema source matches the request. -/
def schema_matches (code : String) (data : Json) : Bool :=
  get_data_sources.any (source_match code data)

/-- The generic key-set fallback search would match the request: some
discovered path re-descends to an object whose code value matches. -/
def generic_matches (code : String) (data : Json) : Bool :=
  (find_object_paths data ["code"] []).any (fun p =>
    match (p.foldl jsonIndexStr data).asObject? with
    | some m =>
      match get_string_value m "code" with
      | some fc => decide (sTrim fc = normalizeCode true code)
      | none => false
    | none => false)

/-- The code comparison performed by the source (`lib.rs` line 122 and
`yf_quote.rs` line 172): the data-side value is only trimmed, the
requested code is suffix-normalized. -/
def code_compare (strip : Bool) (found req : String) : Bool :=
  sTrim found == normalizeCode strip req

/-- The comparison as the spec words it ("read its code-field value,
normalize it (strip suffix if the schema requests it), and compare
case-sensitively (after trimming whitespace) to the (similarly
normalized) requested code"): both sides suffix-normalized and trimmed. -/
def spec_code_compare (strip : Bool) (found req : String) : Bool :=
  sTrim (normalizeCode strip found) == sTrim (normalizeCode strip req)

/-- A price-board tree whose embedded code field is `c`. -/
def mkStockCode (c : String) : Json :=
  Json.obj [("mainStocksPriceBoard",
    Json.obj [("priceBoard", Json.obj [("code", Json.str c)])])]

/-- A tree containing both a schema-matching price board and a second,
generic-searchable object for code 7203. -/
def c2Data : Json :=
  Json.obj [("mainStocksPriceBoard", Json.obj [("priceBoard", Json.obj
      [("code", Json.str "7203"), ("name", Json.str "Toyota")])]),
    ("other", Json.obj [("code", Json.str "7203"), ("name", Json.str "Other")])]

/-- Did the worker outcome panic? -/
def isPanic : WorkerOutcome → Bool
  | WorkerOutcome.panicked => true
  | _ => false

/-- The five selector strings `yf_quote.rs` `main` unwraps in its DOM
fallback (lines 240-244). -/
def yf_quote_dom_selectors : List String :=
  ["h1",
   "div[class*='_CommonPriceBoard__priceBlock'] span[class*='_StyledNumber__value']",
   "span[class*='_PriceChangeLabel__primary'] span[class*='_StyledNumber__value']",
   "span[class*='_PriceChangeLabel__secondary'] span[class*='_StyledNumber__value']",
   "span[class*='_Time'], time[class*='timestamp']"]

mutual
/-- Array-free trees with duplicate-free object keys — the shape every
serde-parsed tree has at its objects, restricted to the array-free case. -/
def plainTree : Json → Bool
  | Json.obj m => decide ((m.map Prod.fst).Nodup) && plainFields m
  | Json.arr _ => false
  | _ => true

def plainFields : List (String × Json) → Bool
  | [] => true
  | (_, v) :: rest => plainTree v && plainFields rest
end

mutual
/-- Number of sub-objects (the value itself included) containing all the
required keys — the quantity `find_object_paths` pushes one path for. -/
def countQualifying : Json → List String → Nat
  | Json.obj m, keys =>
    (if keys.all (fun k => (List.lookup k m).isSome) then 1 else 0) + countQualifyingFields m keys
  | Json.arr a, keys => countQualifyingElems a keys
  | _, _ => 0

def countQualifyingFields : List (String × Json) → List String → Nat
  | [], _ => 0
  | (_, v) :: rest, keys => countQualifying v keys + countQualifyingFields rest keys

def countQualifyingElems : List Json → List String → Nat
  | [], _ => 0
  | v :: rest, keys => countQualifying v keys + countQualifyingElems rest keys
end

/-- A qualifying object behind an array: the recorded path omits the
array position. -/
def c7Data : Json :=
  Json.obj [("a", Json.arr [Json.obj [("code", Json.str "X")]])]

/-- An array-free two-level tree in which both the root and a child
qualify for key `code`. -/
def c7Plain : Json :=
  Json.obj [("code", Json.str "X"), ("b", Json.obj [("code", Json.str "Y")])]

/-- A currency-FX page whose change element text is a bare sign. -/
def c8FxOracle : String → List Elem :=
  fun s => if s = fx_change_selector_string then [⟨"span", none, "+"⟩] else []

/-- An equity page whose primary change label text is "(%" — no sign, no
digit. -/
def c8EqOracle : String → List Elem :=
  fun s => if s = "[class*='PriceChangeLabel__primary']" then [⟨"span", none, "(%"⟩] else []

/-- A currency-FX page with a well-formed change text, for instantiating
the amended scanner invariants. -/
def c8WitnessOracle : String → List Elem :=
  fun s => if s = fx_change_selector_string then [⟨"span", none, "+5"⟩] else []

/-- A page on which the worker's DOM fallback succeeds for every field. -/
def c1DomOracle : String → Option String :=
  fun s => if s = "h1" then some "Toyota" else some "100"

/-- Projection of candidates to their (text, score) pairs. -/
def candPairs (cs : List RankedCandidate) : List (String × Nat) :=
  cs.map (fun c => (c.text, c.score))

/-- Maximum score among a text's occurrences (0 when the text is absent). -/
def maxScoreFor (cs : List RankedCandidate) (t : String) : Nat :=
  cs.foldl (fun a c => if c.text = t then max a c.score else a) 0

/-- The replacement rule of the dedup map: keep the strictly higher
score, first seen wins ties (`and_modify`'s body). -/
def pickBetter (acc c : RankedCandidate) : RankedCandidate :=
  if c.score > acc.score then c else acc

/-- The ranking order on (text, score) pairs: descending score, ties by
ascending text. -/
def pairLEP (p q : String × Nat) : Prop :=
  q.2 < p.2 ∨ (p.2 = q.2 ∧ sLe p.1 q.1 = true)

/-- `dom_value fm code k`: the value the `process_dom_data` key loop
computes for key `k` (requested code for `code`, the first match of the
key's table selector otherwise). -/
def dom_value (fm : String → Option String) (code k : String) : Option String :=
  if k = "code" then some code
  else
    match List.lookup k selector_map with
    | some sel => fm sel
    | none => none

/-- Lookup after inserting at the same key. -/
theorem lookup_insertKV_self (m : List (String × Json)) (k : String) (v : Json) :
    List.lookup k (insertKV m k v) = some v := by
  induction m with
  | nil => simp [insertKV, List.lookup]
  | cons p rest ih =>
    obtain ⟨k0, v0⟩ := p
    by_cases h : k0 = k
    · subst h
      simp [insertKV, List.lookup]
    · have hbeq : (k == k0) = false := beq_eq_false_iff_ne.mpr (Ne.symm h)
      simp [insertKV, h, List.lookup, hbeq, ih]

/-- Lookup at a different key is unchanged by an insert. -/
theorem lookup_insertKV_ne (m : List (String × Json)) (k k0 : String) (v : Json)
    (h : k ≠ k0) : List.lookup k (insertKV m k0 v) = List.lookup k m := by
  have hbeq : (k == k0) = false := beq_eq_false_iff_ne.mpr h
  induction m with
  | nil => simp [insertKV, List.lookup, hbeq]
  | cons p rest ih =>
    obtain ⟨k1, v1⟩ := p
    by_cases h1 : k1 = k0
    · subst h1
      simp [insertKV, List.lookup, hbeq]
    · simp [insertKV, h1, List.lookup, ih]

/-- Every result map built by either structured branch carries its tag. -/
theorem build_results_source_tag (code : String) (keys : Option (List String))
    (mappings : List (String × String)) (tag : String) (obj : List (String × Json)) :
    List.lookup "source" (build_results code keys mappings tag obj) = some (Json.str tag) :=
  lookup_insertKV_self _ _ _

/-- A schema attempt succeeds exactly when its guard predicate holds. -/
theorem try_source_isSome_eq (code : String) (data : Json) (keys : Option (List String))
    (src : DataSource) :
    (try_source code data keys src).isSome = source_match code data src := by
  unfold try_source source_match
  cases find_object data src.path with
  | none => rfl
  | some t =>
    simp only [Option.some_bind]
    cases List.lookup "code" src.mappings with
    | none => rfl
    | some jk =>
      simp only [Option.some_bind]
      cases get_string_value t jk with
      | none => rfl
      | some fc =>
        simp only [Option.some_bind, Option.map_some]
        by_cases h : sTrim fc = normalizeCode src.strip_suffix code <;> simp [h]

/-- A successful schema attempt is tagged `json_predefined`. -/
theorem try_source_tag (code : String) (data : Json) (keys : Option (List String))
    (src : DataSource) (r : List (String × Json))
    (h : try_source code data keys src = some r) :
    List.lookup "source" r = some (Json.str "json_predefined") := by
  unfold try_source at h
  cases hfo : find_object data src.path with
  | none =>
    rw [hfo] at h
    exact absurd h (by simp)
  | some t =>
    rw [hfo, Option.some_bind] at h
    cases hlk : List.lookup "code" src.mappings with
    | none =>
      rw [hlk] at h
      exact absurd h (by simp)
    | some jk =>
      rw [hlk, Option.some_bind] at h
      cases hgv : get_string_value t jk with
      | none =>
        rw [hgv] at h
        exact absurd h (by simp)
      | some fc =>
        rw [hgv, Option.some_bind] at h
        by_cases hc : sTrim fc = normalizeCode src.strip_suffix code
        · rw [if_pos hc] at h
          cases h
          exact build_results_source_tag _ _ _ _ _
        · rw [if_neg hc] at h
          exact absurd h (by simp)

/-- If any schema in the list matches, the schema loop returns a
`json_predefined`-tagged result. -/
theorem try_sources_of_any (code : String) (data : Json) (keys : Option (List String)) :
    ∀ srcs : List DataSource, srcs.any (source_match code data) = true →
      ∃ r, try_sources code data keys srcs = some r ∧
        List.lookup "source" r = some (Json.str "json_predefined") := by
  intro srcs h
  induction srcs with
  | nil => simp at h
  | cons s rest ih =>
    rw [List.any_cons, Bool.or_eq_true] at h
    unfold try_sources
    cases hts : try_source code data keys s with
    | some r => exact ⟨r, rfl, try_source_tag code data keys s r hts⟩
    | none =>
      rcases h with hs | hr
      · have := try_source_isSome_eq code data keys s
        rw [hts, hs] at this
        exact absurd this (by simp)
      · exact ih hr

/-- C2 (confirmed): when the parsed tree contains both an object matching
a predefined schema source and an object the generic key-set search would
match for the same requested code, `process_json_data` returns a record
whose `source` tag is `json_predefined` (the schema strategy) and never
`json_fallback` (the generic one): predefined sources are decided before
the generic search runs. -/
theorem C2_schema_precedence (code : String) (data : Json) (keys : Option (List String))
    (hschema : schema_matches code data = true)
    (hgeneric : generic_matches code data = true) :
    ∃ r, process_json_data code data keys = Except.ok r ∧
      List.lookup "source" r = some (Json.str "json_predefined") ∧
      List.lookup "source" r ≠ some (Json.str "json_fallback") := by
  obtain ⟨r, hr, htag⟩ := try_sources_of_any code data keys get_data_sources hschema
  refine ⟨r, ?_, htag, ?_⟩
  · unfold process_json_data
    rw [hr]
  · rw [htag]
    intro hcontra
    simp at hcontra

/-- C2 witness: a concrete tree containing both a matching price board and
a second generic-searchable object; both guards evaluate true and the
theorem yields the schema-tagged result. -/
theorem C2_schema_precedence_witness :
    schema_matches "7203.T" c2Data = true ∧ generic_matches "7203.T" c2Data = true ∧
      ∃ r, process_json_data "7203.T" c2Data (some ["name"]) = Except.ok r ∧
        List.lookup "source" r = some (Json.str "json_predefined") ∧
        List.lookup "source" r ≠ some (Json.str "json_fallback") :=
  ⟨rfl, rfl, C2_schema_precedence "7203.T" c2Data (some ["name"]) rfl rfl⟩

/-- C1 (corrected) counterexample: a present but truncated
`__PRELOADED_STATE__` capture makes `fetch_single_code`'s dispatch report
a parse error for the request, even on a page whose DOM fallback would
have succeeded for every field — the pipeline does not advance to the
DOM heuristic scan. -/
theorem C1_counterexample :
    handle_body "7203" (some "\x7b\"a\": 1") c1DomOracle none =
        WorkerOutcome.err "Failed to parse JSON" ∧
      ∃ m, process_dom_data "7203" c1DomOracle none = WorkerOutcome.ok m := by
  exact ⟨rfl, ⟨_, rfl⟩⟩

/-- C1 (corrected, amended): a malformed embedded-data block (present but
not parseable) terminates the request with a parse error — it does not
advance to the generic lookup or the DOM scan; only an absent block (the
regex does not match) falls through to the DOM path. -/
theorem C1_amended (code cap : String) (fm : String → Option String)
    (keys : Option (List String)) :
    (jsonParse (cleanCapture cap) = none →
        handle_body code (some cap) fm keys = WorkerOutcome.err "Failed to parse JSON") ∧
      handle_body code none fm keys = process_dom_data code fm keys := by
  constructor
  · intro h
    show (match jsonParse (cleanCapture cap) with
      | some data =>
        match process_json_data code data keys with
        | Except.ok m => WorkerOutcome.ok m
        | Except.error e => WorkerOutcome.err e
      | none => WorkerOutcome.err "Failed to parse JSON") =
        WorkerOutcome.err "Failed to parse JSON"
    rw [h]
  · rfl




/-- C1 witness: a concrete truncated capture fails to parse, and the
request reports the parse error. -/
theorem C1_amended_witness :
    jsonParse (cleanCapture "\x7b\"x\": ") = none ∧
      handle_body "9999" (some "\x7b\"x\": ") (fun _ => none) none =
        WorkerOutcome.err "Failed to parse JSON" :=
  ⟨rfl, (C1_amended "9999" "\x7b\"x\": " (fun _ => none) none).1 rfl⟩

/-- C3 (corrected) counterexample: under the suffix-stripping schema the
source compares the merely-trimmed data-side code against the normalized
requested code, so a data-side value `7203.T` fails to match the request
`7203.T` — whereas the spec's both-sides-normalized comparison succeeds.
End to end, the whole structured lookup errors out on such a tree. -/
theorem C3_counterexample :
    code_compare true "7203.T" "7203.T" = false ∧
      spec_code_compare true "7203.T" "7203.T" = true ∧
      process_json_data "7203.T" (mkStockCode "7203.T") none =
        Except.error "Could not find matching data in JSON." :=
  ⟨rfl, rfl, rfl⟩

/-- C3 (corrected, amended): with suffix-stripping requested, the
requested codes `7203.T` and `7203` normalize to the same key and
`USDJPY=X` is left unsuffixed; but the code value read from the
structured data is only whitespace-trimmed — not suffix-normalized —
before the case-sensitive comparison: the first schema accepts exactly
when the trimmed data value equals the normalized requested code. -/
theorem C3_amended :
    normalizeCode true "7203.T" = normalizeCode true "7203" ∧
      normalizeCode true "USDJPY=X" = "USDJPY=X" ∧
      get_data_sources.head? = some stock_schema ∧
      ∀ (found req : String) (keys : Option (List String)),
        (try_source req (mkStockCode found) keys stock_schema).isSome =
          code_compare true found req := by
  refine ⟨rfl, rfl, rfl, ?_⟩
  intro found req keys
  show (if sTrim found = normalizeCode true req then
      some (build_results req keys stock_schema.mappings "json_predefined"
        [("code", Json.str found)])
    else none).isSome = code_compare true found req
  by_cases h : sTrim found = normalizeCode true req
  · have hbeq : (sTrim found == normalizeCode true req) = true := beq_iff_eq.mpr h
    simp [h, code_compare, hbeq]
  · have hbeq : (sTrim found == normalizeCode true req) = false := beq_eq_false_iff_ne.mpr h
    simp [h, code_compare, hbeq]

/-- C4 (corrected) counterexample: in the worker, when the first schema's
code matches but a requested field's physical key is absent from the
object, the field is omitted from the returned record — it does not
appear with the text `N/A`. -/
theorem C4_counterexample :
    ∃ r, process_json_data "7203" (mkStockCode "7203") (some ["price", "name"]) =
        Except.ok r ∧
      List.lookup "source" r = some (Json.str "json_predefined") ∧
      List.lookup "price" r = none ∧ List.lookup "name" r = none :=
  ⟨_, rfl, rfl, rfl, rfl⟩

/-- In the requested-keys loop of the worker's schema extraction, a key
whose mapped physical key is absent from the target object is never
inserted. -/
theorem build_results_lookup_none (ks : List String) (mappings : List (String × String))
    (tag code k jk : String) (targetObj : List (String × Json))
    (hst : k ≠ "status") (hsrc : k ≠ "source")
    (hmap : List.lookup k mappings = some jk)
    (habs : List.lookup jk targetObj = none) :
    List.lookup k (build_results code (some ks) mappings tag targetObj) = none := by
  unfold build_results
  rw [lookup_insertKV_ne _ _ _ _ hsrc, lookup_insertKV_ne _ _ _ _ hst]
  have hgen : ∀ (l : List String) (acc : List (String × Json)),
      List.lookup k acc = none →
      List.lookup k (l.foldl (build_step code mappings targetObj) acc) = none := by
    intro l
    induction l with
    | nil =>
      intro acc hacc
      simpa using hacc
    | cons key rest ih =>
      intro acc hacc
      rw [List.foldl_cons]
      apply ih
      by_cases hk : key = k
      · subst hk
        unfold build_step
        simp only [hmap, habs]
        exact hacc
      · unfold build_step
        cases hmk : List.lookup key mappings with
        | some jk2 =>
          show List.lookup k (match List.lookup jk2 targetObj with
            | some value => insertKV acc key (Json.str (jsonDisplay value))
            | none => acc) = none
          cases hobj : List.lookup jk2 targetObj with
          | some v =>
            show List.lookup k (insertKV acc key (Json.str (jsonDisplay v))) = none
            rw [lookup_insertKV_ne _ _ _ _ (Ne.symm hk)]
            exact hacc
          | none =>
            show List.lookup k acc = none
            exact hacc
        | none =>
          by_cases hcode : key = "code"
          · subst hcode
            show List.lookup k
              (if ("code" : String) = "code" then insertKV acc "code" (Json.str code)
                else acc) = none
            rw [if_pos rfl, lookup_insertKV_ne _ _ _ _ (Ne.symm hk)]
            exact hacc
          · show List.lookup k
              (if key = "code" then insertKV acc "code" (Json.str code) else acc) = none
            rw [if_neg hcode]
            exact hacc
  exact hgen ks [] rfl

/-- C4 (corrected, amended): when the first schema's code matches, the
worker extracts the requested fields from that object but omits any
requested field whose mapped physical key is absent (no `N/A`
substitution), still tagging the record with the schema source; a
successful schema attempt returns exactly the built record for the
resolved object.  The CLI extractor (`yf_quote.rs`) is the variant that
substitutes the literal `N/A` for absent fields. -/
theorem C4_amended :
    (∀ (ks : List String) (mappings : List (String × String)) (tag code k jk : String)
        (targetObj : List (String × Json)),
        k ≠ "status" → k ≠ "source" →
        List.lookup k mappings = some jk → List.lookup jk targetObj = none →
        List.lookup k (build_results code (some ks) mappings tag targetObj) = none) ∧
      (∀ (code : String) (data : Json) (keys : Option (List String)) (src : DataSource)
          (r : List (String × Json)),
        try_source code data keys src = some r →
        ∃ targetObj, find_object data src.path = some targetObj ∧
          r = build_results code keys src.mappings "json_predefined" targetObj) ∧
      cli_try_source "7203" (mkStockCode "7203") cli_stock_schema =
        some { code := "7203", name := "N/A", price := "N/A", price_change := "N/A",
               price_change_rate := "N/A", update_time := "N/A" } := by
  refine ⟨?_, ?_, rfl⟩
  · intro ks mappings tag code k jk targetObj hst hsrc hmap habs
    exact build_results_lookup_none ks mappings tag code k jk targetObj hst hsrc hmap habs
  · intro code data keys src r h
    unfold try_source at h
    cases hfo : find_object data src.path with
    | none =>
      rw [hfo] at h
      exact absurd h (by simp)
    | some t =>
      rw [hfo, Option.some_bind] at h
      cases hlk : List.lookup "code" src.mappings with
      | none =>
        rw [hlk] at h
        exact absurd h (by simp)
      | some jk =>
        rw [hlk, Option.some_bind] at h
        cases hgv : get_string_value t jk with
        | none =>
          rw [hgv] at h
          exact absurd h (by simp)
        | some fc =>
          rw [hgv, Option.some_bind] at h
          by_cases hc : sTrim fc = normalizeCode src.strip_suffix code
          · rw [if_pos hc] at h
            cases h
            exact ⟨t, rfl, rfl⟩
          · rw [if_neg hc] at h
            exact absurd h (by simp)

/-- C4 witness: concrete instantiations of the omission lemma and of the
schema-result characterization. -/
theorem C4_amended_witness :
    List.lookup "price" (build_results "7203" (some ["price", "name"])
        stock_schema.mappings "json_predefined" [("code", Json.str "7203")]) = none ∧
      ∃ targetObj, find_object (mkStockCode "7203") stock_schema.path = some targetObj ∧
        [("status", Json.str "OK"), ("source", Json.str "json_predefined")] =
          build_results "7203" (some ["price"]) stock_schema.mappings "json_predefined"
            targetObj :=
  ⟨C4_amended.1 ["price", "name"] stock_schema.mappings "json_predefined" "7203" "price"
      "price" [("code", Json.str "7203")] (by decide) (by decide) rfl rfl,
    C4_amended.2.1 "7203" (mkStockCode "7203") (some ["price"]) stock_schema
      [("status", Json.str "OK"), ("source", Json.str "json_predefined")] rfl⟩

/-- C7 (corrected) counterexample: for a qualifying object inside an
array, the recorded path omits the array position, so re-descending the
original tree along the returned path lands on the array — not on the
qualifying object (the tree contains exactly one qualifying object). -/
theorem C7_counterexample :
    find_object_paths c7Data ["code"] [] = [["a"]] ∧
      (List.foldl jsonIndexStr c7Data ["a"]).asObject? = none ∧
      countQualifying c7Data ["code"] = 1 :=
  ⟨rfl, rfl, rfl⟩

/-- C9 (confirmed): for a currency code the orchestrator routes to the
currency pipeline exactly when the code does not lead with `^` and
trails `=X` or `=FX`; discovery then fetches the `=X` and `=FX` page
variants and merges them by the fixed rule — name, price and update-time
candidates exactly from the primary (`=X`) discovery, change and
change-rate candidates exactly from the secondary (`=FX`) discovery, the
merged record keyed by the originally requested code. -/
theorem C9_currency_merge (selectX selectFX : String → List Elem) (code : String) :
    (discover_currency_data selectX selectFX code).code = code ∧
      (discover_currency_data selectX selectFX code).name_candidates =
        (discover_currency_x_data selectX (currencyCodeX code)).name_candidates ∧
      (discover_currency_data selectX selectFX code).price_candidates =
        (discover_currency_x_data selectX (currencyCodeX code)).price_candidates ∧
      (discover_currency_data selectX selectFX code).update_time_candidates =
        (discover_currency_x_data selectX (currencyCodeX code)).update_time_candidates ∧
      (discover_currency_data selectX selectFX code).change_abs_candidates =
        (discover_currency_fx_data selectFX (currencyCodeFX code)).change_abs_candidates ∧
      (discover_currency_data selectX selectFX code).change_pct_candidates =
        (discover_currency_fx_data selectFX (currencyCodeFX code)).change_pct_candidates ∧
      (choose_pipeline code = PipelineChoice.currency ↔
        (sStartsWith code "^" = false ∧
          (sEndsWith code "=X" || sEndsWith code "=FX") = true)) := by
  refine ⟨rfl, rfl, rfl, rfl, rfl, rfl, ?_⟩
  unfold choose_pipeline
  by_cases h1 : sStartsWith code "^" = true
  · simp [h1]
  · rw [Bool.not_eq_true] at h1
    by_cases h2 : (sEndsWith code "=X" || sEndsWith code "=FX") = true
    · simp [h1, h2]
    · rw [Bool.not_eq_true] at h2
      simp [h1, h2]

/-- A lookup result inherits any `all` property of a table's values. -/
theorem lookup_all_snd (P : String → Bool) :
    ∀ (l : List (String × String)) (k s : String), List.lookup k l = some s →
      l.all (fun p => P p.2) = true → P s = true := by
  intro l
  induction l with
  | nil =>
    intro k s h _
    simp [List.lookup] at h
  | cons p rest ih =>
    intro k s h hall
    obtain ⟨k0, v0⟩ := p
    rw [List.all_cons, Bool.and_eq_true] at hall
    cases hk : (k == k0) with
    | true =>
      rw [show List.lookup k ((k0, v0) :: rest) = some v0 from by
        simp [List.lookup, hk]] at h
      cases h
      exact hall.1
    | false =>
      rw [show List.lookup k ((k0, v0) :: rest) = List.lookup k rest from by
        simp [List.lookup, hk]] at h
      exact ih k s h hall.2

/-- Every selector in the worker's field table passes the validity model. -/
theorem selector_map_all_ok : selector_map.all (fun p => selectorOk p.2) = true := rfl

/-- The key loop of `process_dom_data` never reaches the modelled panic:
each selector it parses is drawn from the table, and each table selector
is syntactically valid. -/
theorem dom_scan_isSome (fm : String → Option String) (code : String) :
    ∀ (ks : List String) (acc : List (String × Json)),
      (dom_scan fm code ks acc).isSome = true := by
  intro ks
  induction ks with
  | nil =>
    intro acc
    rfl
  | cons key rest ih =>
    intro acc
    unfold dom_scan
    by_cases hk : key = "code"
    · rw [if_pos hk]
      exact ih _
    · rw [if_neg hk]
      cases hlk : List.lookup key selector_map with
      | none => exact ih _
      | some selStr =>
        have hok : selectorOk selStr = true :=
          lookup_all_snd selectorOk selector_map key selStr hlk selector_map_all_ok
        show (if selectorOk selStr then
            match fm selStr with
            | some txt => dom_scan fm code rest (insertKV acc key (Json.str txt))
            | none => dom_scan fm code rest acc
          else none).isSome = true
        rw [hok]
        show (match fm selStr with
          | some txt => dom_scan fm code rest (insertKV acc key (Json.str txt))
          | none => dom_scan fm code rest acc).isSome = true
        cases fm selStr with
        | some txt => exact ih _
        | none => exact ih _

/-- C10 (confirmed): the DOM fallback never panics — every selector string
in the worker's built-in field table parses as syntactically valid, so the
modelled `unwrap` error branch is unreachable for every input document,
code and key list; the five selectors the CLI extractor unwraps are valid
as well.  (`Selector::parse` itself is external; validity is the modelled
CSS selector-list grammar.) -/
theorem C10_no_selector_panic :
    (∀ (code : String) (fm : String → Option String) (keys : Option (List String)),
        isPanic (process_dom_data code fm keys) = false) ∧
      yf_quote_dom_selectors.all selectorOk = true := by
  constructor
  · intro code fm keys
    obtain ⟨r, hr⟩ := Option.isSome_iff_exists.mp
      (dom_scan_isSome fm code (keys.getD default_dom_keys) [])
    show isPanic (match dom_scan fm code (keys.getD default_dom_keys) [] with
      | none => WorkerOutcome.panicked
      | some results =>
        if (keys.getD default_dom_keys).contains "name" && !(containsKey results "name") then
          WorkerOutcome.err "Failed to scrape essential data (name) from DOM."
        else if (keys.getD default_dom_keys).contains "price" &&
            !(containsKey results "price") then
          WorkerOutcome.err "Failed to scrape essential data (price) from DOM."
        else
          WorkerOutcome.ok
            (insertKV (insertKV results "status" (Json.str "OK")) "source"
              (Json.str "dom_fallback"))) = false
    rw [hr]
    show isPanic (if (keys.getD default_dom_keys).contains "name" &&
          !(containsKey r "name") then
        WorkerOutcome.err "Failed to scrape essential data (name) from DOM."
      else if (keys.getD default_dom_keys).contains "price" && !(containsKey r "price") then
        WorkerOutcome.err "Failed to scrape essential data (price) from DOM."
      else
        WorkerOutcome.ok
          (insertKV (insertKV r "status" (Json.str "OK")) "source"
            (Json.str "dom_fallback"))) = false
    split
    · rfl
    · split
      · rfl
      · rfl
  · rfl

/-- Per-key characterization of the `process_dom_data` loop: a key's final
entry is `dom_value` when the key was processed and produced a value, and
the initial map's entry otherwise. -/
theorem dom_scan_lookup (fm : String → Option String) (code : String) :
    ∀ (ks : List String) (acc r : List (String × Json)),
      dom_scan fm code ks acc = some r → ∀ k : String,
      List.lookup k r =
        if k ∈ ks ∧ (dom_value fm code k).isSome = true
        then (dom_value fm code k).map Json.str
        else List.lookup k acc := by
  intro ks
  induction ks with
  | nil =>
    intro acc r h k
    cases h
    simp
  | cons key rest ih =>
    intro acc r h k
    unfold dom_scan at h
    by_cases hkey : key = "code"
    · rw [if_pos hkey] at h
      subst hkey
      have hstep := ih _ r h k
      rw [hstep]
      by_cases hk : k = "code"
      · subst hk
        have hdv : dom_value fm code "code" = some code := rfl
        rw [hdv]
        by_cases hmem : "code" ∈ rest
        · simp [hmem, List.mem_cons]
        · simp [hmem, List.mem_cons, lookup_insertKV_self]
      · have hne := lookup_insertKV_ne acc k "code" (Json.str code) hk
        simp [List.mem_cons, hk, hne]
    · rw [if_neg hkey] at h
      cases hlk : List.lookup key selector_map with
      | none =>
        rw [hlk] at h
        have h2 : dom_scan fm code rest acc = some r := h
        have hstep := ih _ r h2 k
        rw [hstep]
        by_cases hk : k = key
        · subst hk
          have hdv : dom_value fm code k = none := by
            unfold dom_value
            rw [if_neg hkey, hlk]
          rw [hdv]
          simp [List.mem_cons]
        · simp [List.mem_cons, hk]
      | some sel =>
        rw [hlk] at h
        have hok : selectorOk sel = true :=
          lookup_all_snd selectorOk selector_map key sel hlk selector_map_all_ok
        have h2 : (if selectorOk sel then
            match fm sel with
            | some txt => dom_scan fm code rest (insertKV acc key (Json.str txt))
            | none => dom_scan fm code rest acc
          else none) = some r := h
        rw [hok, if_pos rfl] at h2
        cases hfm : fm sel with
        | some txt =>
          rw [hfm] at h2
          have h3 : dom_scan fm code rest (insertKV acc key (Json.str txt)) = some r := h2
          have hstep := ih _ r h3 k
          rw [hstep]
          by_cases hk : k = key
          · subst hk
            have hdv : dom_value fm code k = some txt := by
              unfold dom_value
              rw [if_neg hkey, hlk]
              exact hfm
            rw [hdv]
            by_cases hmem : k ∈ rest
            · simp [hmem, List.mem_cons]
            · simp [hmem, List.mem_cons, lookup_insertKV_self]
          · have hne := lookup_insertKV_ne acc k key (Json.str txt) hk
            simp [List.mem_cons, hk, hne]
        | none =>
          rw [hfm] at h2
          have h3 : dom_scan fm code rest acc = some r := h2
          have hstep := ih _ r h3 k
          rw [hstep]
          by_cases hk : k = key
          · subst hk
            have hdv : dom_value fm code k = none := by
              unfold dom_value
              rw [if_neg hkey, hlk]
              exact hfm
            rw [hdv]
            simp [List.mem_cons]
          · simp [List.mem_cons, hk]

/-- C6 (corrected) counterexample: on a page where nothing matches, the
request terminates with an error naming only `name` — the message does
not enumerate `price` (no occurrence of the text `price` in it), contrary
to the claim that all unresolved fields are listed. -/
theorem C6_counterexample :
    process_dom_data "9999" (fun _ => none) none =
        WorkerOutcome.err "Failed to scrape essential data (name) from DOM." ∧
      (sSplitOn "Failed to scrape essential data (name) from DOM." "price").length = 1 :=
  ⟨rfl, rfl⟩

/-- C6 (corrected, amended): when strategies are exhausted the request
terminates with an error naming only the first missing essential field —
`name` is checked before `price`: with no name candidate the error names
`name` alone (whatever the other fields did); with a name but no price
candidate it names `price` alone. -/
theorem C6_amended (fm : String → Option String) (code : String) :
    (fm "h1" = none →
        process_dom_data code fm none =
          WorkerOutcome.err "Failed to scrape essential data (name) from DOM.") ∧
      (∀ nm, fm "h1" = some nm →
        fm "div[class*='_CommonPriceBoard__priceBlock'] span[class*='_StyledNumber__value']" =
          none →
        process_dom_data code fm none =
          WorkerOutcome.err "Failed to scrape essential data (price) from DOM.") := by
  obtain ⟨r, hr⟩ := Option.isSome_iff_exists.mp (dom_scan_isSome fm code default_dom_keys [])
  constructor
  · intro h1
    have hlook := dom_scan_lookup fm code default_dom_keys [] r hr "name"
    have hdv : dom_value fm code "name" = fm "h1" := rfl
    have hnone : List.lookup "name" r = none := by
      rw [hlook, hdv, h1]
      simp
    have hck : containsKey r "name" = false := by
      unfold containsKey
      rw [hnone]
      rfl
    show (match dom_scan fm code default_dom_keys [] with
      | none => WorkerOutcome.panicked
      | some results =>
        if default_dom_keys.contains "name" && !(containsKey results "name") then
          WorkerOutcome.err "Failed to scrape essential data (name) from DOM."
        else if default_dom_keys.contains "price" && !(containsKey results "price") then
          WorkerOutcome.err "Failed to scrape essential data (price) from DOM."
        else
          WorkerOutcome.ok
            (insertKV (insertKV results "status" (Json.str "OK")) "source"
              (Json.str "dom_fallback"))) =
      WorkerOutcome.err "Failed to scrape essential data (name) from DOM."
    rw [hr]
    show (if default_dom_keys.contains "name" && !(containsKey r "name") then
        WorkerOutcome.err "Failed to scrape essential data (name) from DOM."
      else if default_dom_keys.contains "price" && !(containsKey r "price") then
        WorkerOutcome.err "Failed to scrape essential data (price) from DOM."
      else
        WorkerOutcome.ok
          (insertKV (insertKV r "status" (Json.str "OK")) "source"
            (Json.str "dom_fallback"))) =
      WorkerOutcome.err "Failed to scrape essential data (name) from DOM."
    rw [show (default_dom_keys.contains "name" && !(containsKey r "name")) = true from by
      rw [hck]
      rfl]
    rw [if_pos rfl]
  · intro nm h1 hp
    have hlookN := dom_scan_lookup fm code default_dom_keys [] r hr "name"
    have hlookP := dom_scan_lookup fm code default_dom_keys [] r hr "price"
    have hdvN : dom_value fm code "name" = fm "h1" := rfl
    have hdvP : dom_value fm code "price" =
        fm "div[class*='_CommonPriceBoard__priceBlock'] span[class*='_StyledNumber__value']" :=
      rfl
    have hsomeN : List.lookup "name" r = some (Json.str nm) := by
      rw [hlookN, hdvN, h1]
      simp [default_dom_keys, List.mem_cons]
    have hnoneP : List.lookup "price" r = none := by
      rw [hlookP, hdvP, hp]
      simp
    have hckN : containsKey r "name" = true := by
      unfold containsKey
      rw [hsomeN]
      rfl
    have hckP : containsKey r "price" = false := by
      unfold containsKey
      rw [hnoneP]
      rfl
    show (match dom_scan fm code default_dom_keys [] with
      | none => WorkerOutcome.panicked
      | some results =>
        if default_dom_keys.contains "name" && !(containsKey results "name") then
          WorkerOutcome.err "Failed to scrape essential data (name) from DOM."
        else if default_dom_keys.contains "price" && !(containsKey results "price") then
          WorkerOutcome.err "Failed to scrape essential data (price) from DOM."
        else
          WorkerOutcome.ok
            (insertKV (insertKV results "status" (Json.str "OK")) "source"
              (Json.str "dom_fallback"))) =
      WorkerOutcome.err "Failed to scrape essential data (price) from DOM."
    rw [hr]
    show (if default_dom_keys.contains "name" && !(containsKey r "name") then
        WorkerOutcome.err "Failed to scrape essential data (name) from DOM."
      else if default_dom_keys.contains "price" && !(containsKey r "price") then
        WorkerOutcome.err "Failed to scrape essential data (price) from DOM."
      else
        WorkerOutcome.ok
          (insertKV (insertKV r "status" (Json.str "OK")) "source"
            (Json.str "dom_fallback"))) =
      WorkerOutcome.err "Failed to scrape essential data (price) from DOM."
    rw [show (default_dom_keys.contains "name" && !(containsKey r "name")) = false from by
      rw [hckN]
      rfl]
    rw [if_neg Bool.false_ne_true]
    rw [show (default_dom_keys.contains "price" && !(containsKey r "price")) = true from by
      rw [hckP]
      rfl]
    rw [if_pos rfl]

/-- C6 witness: a page with no matches errors naming `name` alone; a page
with only a heading errors naming `price` alone. -/
theorem C6_amended_witness :
    process_dom_data "9998" (fun _ => none) none =
        WorkerOutcome.err "Failed to scrape essential data (name) from DOM." ∧
      process_dom_data "9998" (fun s => if s = "h1" then some "Nikkei" else none) none =
        WorkerOutcome.err "Failed to scrape essential data (price) from DOM." :=
  ⟨(C6_amended (fun _ => none) "9998").1 rfl,
    (C6_amended (fun s => if s = "h1" then some "Nikkei" else none) "9998").2 "Nikkei" rfl rfl⟩

/-- `lexLe` is total. -/
theorem lexLe_total : ∀ x y : List Char, (lexLe x y || lexLe y x) = true := by
  intro x
  induction x with
  | nil =>
    intro y
    simp [lexLe]
  | cons a as ih =>
    intro y
    cases y with
    | nil => simp [lexLe]
    | cons b bs =>
      by_cases hab : a = b
      · subst hab
        simpa [lexLe] using ih bs
      · rcases lt_trichotomy a b with hlt | heq | hgt
        · simp [lexLe, hab, Ne.symm hab, hlt]
        · exact absurd heq hab
        · simp [lexLe, hab, Ne.symm hab, hgt]

/-- `lexLe` is transitive. -/
theorem lexLe_trans :
    ∀ x y z : List Char, lexLe x y = true → lexLe y z = true → lexLe x z = true := by
  intro x
  induction x with
  | nil =>
    intro y z _ _
    simp [lexLe]
  | cons a as ih =>
    intro y z hxy hyz
    cases y with
    | nil => simp [lexLe] at hxy
    | cons b bs =>
      cases z with
      | nil => simp [lexLe] at hyz
      | cons c cs =>
        by_cases hab : a = b
        · subst hab
          by_cases hbc : a = c
          · subst hbc
            simp [lexLe] at hxy hyz ⊢
            exact ih bs cs hxy hyz
          · simp [lexLe, hbc] at hyz ⊢
            exact hyz
        · by_cases hbc : b = c
          · subst hbc
            simp [lexLe, hab] at hxy ⊢
            exact hxy
          · simp [lexLe, hab] at hxy
            simp [lexLe, hbc] at hyz
            have hac : a < c := lt_trans hxy hyz
            have hne : a ≠ c := ne_of_lt hac
            simp [lexLe, hne]
            exact hac

/-- `lexLe` is antisymmetric. -/
theorem lexLe_antisymm :
    ∀ x y : List Char, lexLe x y = true → lexLe y x = true → x = y := by
  intro x
  induction x with
  | nil =>
    intro y _ hyx
    cases y with
    | nil => rfl
    | cons b bs => simp [lexLe] at hyx
  | cons a as ih =>
    intro y hxy hyx
    cases y with
    | nil => simp [lexLe] at hxy
    | cons b bs =>
      by_cases hab : a = b
      · subst hab
        simp [lexLe] at hxy hyx
        rw [ih bs hxy hyx]
      · simp [lexLe, hab, Ne.symm hab] at hxy hyx
        exact absurd (lt_trans hxy hyx) (lt_irrefl _)

/-- `sLe` is antisymmetric (strings with equal data are equal). -/
theorem sLe_antisymm (a b : String) (h1 : sLe a b = true) (h2 : sLe b a = true) : a = b := by
  have hd : a.data = b.data := lexLe_antisymm a.data b.data h1 h2
  exact congrArg String.mk hd

/-- `sLe` is total. -/
theorem sLe_total (a b : String) : (sLe a b || sLe b a) = true :=
  lexLe_total a.data b.data

/-- `sLe` is transitive. -/
theorem sLe_trans (a b c : String) (h1 : sLe a b = true) (h2 : sLe b c = true) :
    sLe a c = true :=
  lexLe_trans a.data b.data c.data h1 h2

/-- The comparator of `deduplicate_and_sort_candidates` is total. -/
instance : IsTotal RankedCandidate candLEP where
  total := by
    intro a b
    unfold candLEP candLE
    rcases Nat.lt_trichotomy a.score b.score with hlt | heq | hgt
    · right
      simp [hlt]
    · rcases Bool.or_eq_true_iff.mp (sLe_total a.text b.text) with h | h
      · left
        simp [heq, h]
      · right
        simp [heq.symm, h]
    · left
      simp [hgt]

/-- The comparator of `deduplicate_and_sort_candidates` is transitive. -/
instance : IsTrans RankedCandidate candLEP where
  trans := by
    intro a b c h1 h2
    unfold candLEP candLE at h1 h2 ⊢
    rcases Bool.or_eq_true_iff.mp h1 with hd1 | hc1
    · have hlt1 : b.score < a.score := of_decide_eq_true hd1
      rcases Bool.or_eq_true_iff.mp h2 with hd2 | hc2
      · simp [Nat.lt_trans (of_decide_eq_true hd2) hlt1]
      · obtain ⟨hbeq, _⟩ := Bool.and_eq_true_iff.mp hc2
        have heq : b.score = c.score := beq_iff_eq.mp hbeq
        simp [heq ▸ hlt1]
    · obtain ⟨hbeq1, hsle1⟩ := Bool.and_eq_true_iff.mp hc1
      have heq1 : a.score = b.score := beq_iff_eq.mp hbeq1
      rcases Bool.or_eq_true_iff.mp h2 with hd2 | hc2
      · have hlt2 : c.score < b.score := of_decide_eq_true hd2
        have hlt3 : c.score < a.score := heq1 ▸ hlt2
        simp [hlt3]
      · obtain ⟨hbeq2, hsle2⟩ := Bool.and_eq_true_iff.mp hc2
        have heq2 : b.score = c.score := beq_iff_eq.mp hbeq2
        have heq3 : a.score = c.score := heq1.trans heq2
        have hsle3 : sLe a.text c.text = true := sLe_trans _ _ _ hsle1 hsle2
        simp [heq3, hsle3]

/-- Lookup after one `entry(..).and_modify(..).or_insert(..)` step. -/
theorem lookup_upsert (m : List (String × RankedCandidate)) (c : RankedCandidate)
    (t : String) :
    List.lookup t (upsertCandidate m c) =
      if c.text = t then
        match List.lookup t m with
        | some e => some (pickBetter e c)
        | none => some c
      else List.lookup t m := by
  induction m with
  | nil =>
    by_cases h : c.text = t
    · subst h
      simp [upsertCandidate, List.lookup]
    · have hbeq : (t == c.text) = false := beq_eq_false_iff_ne.mpr (Ne.symm h)
      simp [upsertCandidate, List.lookup, h, hbeq]
  | cons p rest ih =>
    obtain ⟨k0, e0⟩ := p
    by_cases hk : k0 = c.text
    · subst hk
      simp only [upsertCandidate, if_pos rfl]
      by_cases h : c.text = t
      · subst h
        simp [List.lookup, pickBetter]
      · have hbeq : (t == c.text) = false := beq_eq_false_iff_ne.mpr (Ne.symm h)
        simp [List.lookup, hbeq, h]
    · simp only [upsertCandidate, if_neg hk]
      cases hbeq : (t == k0) with
      | true =>
        have ht : t = k0 := beq_iff_eq.mp hbeq
        have hct : ¬(c.text = t) := fun h => hk ((h.trans ht).symm)
        simp [List.lookup, hbeq, hct]
      | false =>
        simp [List.lookup, hbeq, ih]

/-- Values in the dedup map carry their own text as key. -/
theorem upsert_text_inv (m : List (String × RankedCandidate)) (c : RankedCandidate)
    (h : ∀ p ∈ m, (p.2).text = p.1) :
    ∀ p ∈ upsertCandidate m c, (p.2).text = p.1 := by
  induction m with
  | nil =>
    intro p hp
    simp [upsertCandidate] at hp
    rw [hp]
  | cons q rest ih =>
    obtain ⟨k0, e0⟩ := q
    intro p hp
    by_cases hk : k0 = c.text
    · simp only [upsertCandidate, if_pos hk] at hp
      rcases List.mem_cons.mp hp with hp1 | hp2
      · rw [hp1]
        by_cases hs : c.score > e0.score
        · simp [hs, hk.symm]
        · simpa [hs] using h (k0, e0) (List.mem_cons_self _ _)
      · exact h p (List.mem_cons_of_mem _ hp2)
    · simp only [upsertCandidate, if_neg hk] at hp
      rcases List.mem_cons.mp hp with hp1 | hp2
      · rw [hp1]
        exact h (k0, e0) (List.mem_cons_self _ _)
      · exact ih (fun q hq => h q (List.mem_cons_of_mem _ hq)) p hp2

/-- Every entry of the upserted map is an old entry or the new candidate. -/
theorem upsert_mem (m : List (String × RankedCandidate)) (c : RankedCandidate)
    (p : String × RankedCandidate) (hp : p ∈ upsertCandidate m c) : p ∈ m ∨ p.2 = c := by
  induction m with
  | nil =>
    simp [upsertCandidate] at hp
    rw [hp]
    exact Or.inr rfl
  | cons q rest ih =>
    obtain ⟨k0, e0⟩ := q
    by_cases hk : k0 = c.text
    · simp only [upsertCandidate, if_pos hk] at hp
      rcases List.mem_cons.mp hp with hp1 | hp2
      · by_cases hs : c.score > e0.score
        · rw [hp1]
          simp [hs]
        · rw [hp1]
          simp [hs]
      · exact Or.inl (List.mem_cons_of_mem _ hp2)
    · simp only [upsertCandidate, if_neg hk] at hp
      rcases List.mem_cons.mp hp with hp1 | hp2
      · rw [hp1]
        exact Or.inl (List.mem_cons_self _ _)
      · rcases ih hp2 with h | h
        · exact Or.inl (List.mem_cons_of_mem _ h)
        · exact Or.inr h

/-- Keys of the upserted map: unchanged when the text was present, the
new text appended otherwise. -/
theorem upsert_keys (m : List (String × RankedCandidate)) (c : RankedCandidate) :
    (upsertCandidate m c).map Prod.fst =
      if c.text ∈ m.map Prod.fst then m.map Prod.fst else m.map Prod.fst ++ [c.text] := by
  induction m with
  | nil =>
    simp [upsertCandidate]
  | cons q rest ih =>
    obtain ⟨k0, e0⟩ := q
    by_cases hk : k0 = c.text
    · subst hk
      simp [upsertCandidate]
    · have hne : ¬(c.text = k0) := fun h => hk h.symm
      by_cases hmem : c.text ∈ rest.map Prod.fst
      · simp [upsertCandidate, hk, ih, hmem, hne, List.mem_cons]
      · simp [upsertCandidate, hk, ih, hmem, hne, List.mem_cons]

/-- Text-as-key invariant of the whole dedup map. -/
theorem candidateMap_text_inv (cs : List RankedCandidate) :
    ∀ p ∈ candidateMap cs, (p.2).text = p.1 := by
  unfold candidateMap
  have hgen : ∀ (l : List RankedCandidate) (m : List (String × RankedCandidate)),
      (∀ p ∈ m, (p.2).text = p.1) → ∀ p ∈ l.foldl upsertCandidate m, (p.2).text = p.1 := by
    intro l
    induction l with
    | nil =>
      intro m hm
      simpa using hm
    | cons c rest ih =>
      intro m hm
      rw [List.foldl_cons]
      exact ih _ (upsert_text_inv m c hm)
  exact hgen cs [] (by simp)

/-- Every value in the dedup map is one of the input candidates. -/
theorem candidateMap_mem_val (cs : List RankedCandidate) (p : String × RankedCandidate)
    (hp : p ∈ candidateMap cs) : p.2 ∈ cs := by
  unfold candidateMap at hp
  have hgen : ∀ (l : List RankedCandidate) (m : List (String × RankedCandidate)),
      p ∈ l.foldl upsertCandidate m → p ∈ m ∨ p.2 ∈ l := by
    intro l
    induction l with
    | nil =>
      intro m h
      exact Or.inl (by simpa using h)
    | cons c rest ih =>
      intro m h
      rw [List.foldl_cons] at h
      rcases ih _ h with h2 | h2
      · rcases upsert_mem m c p h2 with h3 | h3
        · exact Or.inl h3
        · exact Or.inr (by rw [h3]; exact List.mem_cons_self _ _)
      · exact Or.inr (List.mem_cons_of_mem _ h2)
  rcases hgen cs [] hp with h | h
  · simp at h
  · exact h

/-- Keys of the dedup map are distinct. -/
theorem candidateMap_keys_nodup (cs : List RankedCandidate) :
    ((candidateMap cs).map Prod.fst).Nodup := by
  unfold candidateMap
  have hgen : ∀ (l : List RankedCandidate) (m : List (String × RankedCandidate)),
      (m.map Prod.fst).Nodup → ((l.foldl upsertCandidate m).map Prod.fst).Nodup := by
    intro l
    induction l with
    | nil =>
      intro m hm
      simpa using hm
    | cons c rest ih =>
      intro m hm
      rw [List.foldl_cons]
      apply ih
      rw [upsert_keys m c]
      by_cases hmem : c.text ∈ m.map Prod.fst
      · rw [if_pos hmem]
        exact hm
      · rw [if_neg hmem]
        simp [List.nodup_append, hm, hmem]
  exact hgen cs [] (by simp)

/-- Lookup through the whole dedup fold, relative to the filtered input. -/
theorem foldl_upsert_lookup (t : String) :
    ∀ (cs : List RankedCandidate) (m : List (String × RankedCandidate)),
      List.lookup t (cs.foldl upsertCandidate m) =
        match List.lookup t m with
        | some e => some ((cs.filter (fun c => c.text == t)).foldl pickBetter e)
        | none =>
          match cs.filter (fun c => c.text == t) with
          | [] => none
          | c0 :: l' => some (l'.foldl pickBetter c0) := by
  intro cs
  induction cs with
  | nil =>
    intro m
    cases h : List.lookup t m <;> simp [h]
  | cons c cs' ih =>
    intro m
    rw [List.foldl_cons, ih (upsertCandidate m c), lookup_upsert m c t]
    by_cases hct : c.text = t
    · have hb : (c.text == t) = true := beq_iff_eq.mpr hct
      rw [List.filter_cons, if_pos hb]
      cases hm : List.lookup t m with
      | some e => simp [hct, hm]
      | none => simp [hct, hm]
    · have hb : (c.text == t) = false := beq_eq_false_iff_ne.mpr hct
      rw [show (c :: cs').filter (fun x => x.text == t) = cs'.filter (fun x => x.text == t) from
        by simp [List.filter_cons, hb]]
      simp [hct]

/-- Lookup in the dedup map equals the running best of the same-text
input candidates. -/
theorem candidateMap_lookup (cs : List RankedCandidate) (t : String) :
    List.lookup t (candidateMap cs) =
      match cs.filter (fun c => c.text == t) with
      | [] => none
      | c0 :: l' => some (l'.foldl pickBetter c0) := by
  have h := foldl_upsert_lookup t cs []
  simpa [candidateMap] using h

/-- The running best's score is the running maximum. -/
theorem foldl_pickBetter_score :
    ∀ (l : List RankedCandidate) (acc : RankedCandidate),
      (l.foldl pickBetter acc).score = l.foldl (fun a c => max a c.score) acc.score := by
  intro l
  induction l with
  | nil =>
    intro acc
    rfl
  | cons c rest ih =>
    intro acc
    have hstep : (pickBetter acc c).score = max acc.score c.score := by
      unfold pickBetter
      split <;> omega
    rw [List.foldl_cons, List.foldl_cons, ih, hstep]

/-- The running best is the accumulator or one of the list elements. -/
theorem foldl_pickBetter_mem :
    ∀ (l : List RankedCandidate) (acc : RankedCandidate),
      l.foldl pickBetter acc = acc ∨ l.foldl pickBetter acc ∈ l := by
  intro l
  induction l with
  | nil =>
    intro acc
    exact Or.inl rfl
  | cons c rest ih =>
    intro acc
    rw [List.foldl_cons]
    rcases ih (pickBetter acc c) with h | h
    · rw [h]
      unfold pickBetter
      split
      · exact Or.inr (List.mem_cons_self _ _)
      · exact Or.inl rfl
    · exact Or.inr (List.mem_cons_of_mem _ h)

/-- `maxScoreFor` as a maximum over the same-text candidates. -/
theorem maxScoreFor_eq_filter (cs : List RankedCandidate) (t : String) :
    maxScoreFor cs t =
      (cs.filter (fun c => c.text == t)).foldl (fun a c => max a c.score) 0 := by
  unfold maxScoreFor
  have hgen : ∀ (l : List RankedCandidate) (n : Nat),
      l.foldl (fun a c => if c.text = t then max a c.score else a) n =
        (l.filter (fun c => c.text == t)).foldl (fun a c => max a c.score) n := by
    intro l
    induction l with
    | nil =>
      intro n
      rfl
    | cons c rest ih =>
      intro n
      by_cases h : c.text = t
      · have hb : (c.text == t) = true := beq_iff_eq.mpr h
        simp [List.filter_cons, hb, h, ih]
      · have hb : (c.text == t) = false := beq_eq_false_iff_ne.mpr h
        simp [List.filter_cons, hb, h, ih]
  exact hgen cs 0

/-- The max fold dominates its start. -/
theorem foldl_max_start_le :
    ∀ (l : List RankedCandidate) (n : Nat), n ≤ l.foldl (fun a c => max a c.score) n := by
  intro l
  induction l with
  | nil =>
    intro n
    exact Nat.le_refl n
  | cons c rest ih =>
    intro n
    rw [List.foldl_cons]
    exact Nat.le_trans (Nat.le_max_left _ _) (ih _)

/-- The max fold dominates every element. -/
theorem foldl_max_mem_le :
    ∀ (l : List RankedCandidate) (n : Nat) (c : RankedCandidate), c ∈ l →
      c.score ≤ l.foldl (fun a c => max a c.score) n := by
  intro l
  induction l with
  | nil =>
    intro n c hc
    simp at hc
  | cons c0 rest ih =>
    intro n c hc
    rw [List.foldl_cons]
    rcases List.mem_cons.mp hc with h | h
    · rw [h]
      exact Nat.le_trans (Nat.le_max_right _ _) (foldl_max_start_le _ _)
    · exact ih _ c h

/-- The max fold's value is its start or some element's score. -/
theorem foldl_max_attained :
    ∀ (l : List RankedCandidate) (n : Nat),
      l.foldl (fun a c => max a c.score) n = n ∨
        ∃ c ∈ l, c.score = l.foldl (fun a c => max a c.score) n := by
  intro l
  induction l with
  | nil =>
    intro n
    exact Or.inl rfl
  | cons c rest ih =>
    intro n
    rw [List.foldl_cons]
    rcases ih (max n c.score) with h | ⟨c2, hc2, hs⟩
    · rw [h]
      by_cases hcs : n ≤ c.score
      · right
        exact ⟨c, List.mem_cons_self _ _, by omega⟩
      · left
        omega
    · right
      exact ⟨c2, List.mem_cons_of_mem _ hc2, hs⟩

/-- A successful association-list lookup is a membership. -/
theorem lookup_mem_SR :
    ∀ (m : List (String × RankedCandidate)) (k : String) (e : RankedCandidate),
      List.lookup k m = some e → (k, e) ∈ m := by
  intro m
  induction m with
  | nil =>
    intro k e h
    simp [List.lookup] at h
  | cons p rest ih =>
    intro k e h
    obtain ⟨k0, e0⟩ := p
    cases hbeq : (k == k0) with
    | true =>
      have hk : k = k0 := beq_iff_eq.mp hbeq
      rw [show List.lookup k ((k0, e0) :: rest) = some e0 from by simp [List.lookup, hbeq]]
        at h
      cases h
      rw [hk]
      exact List.mem_cons_self _ _
    | false =>
      rw [show List.lookup k ((k0, e0) :: rest) = List.lookup k rest from by
        simp [List.lookup, hbeq]] at h
      exact List.mem_cons_of_mem _ (ih k e h)

/-- With distinct keys, a membership is a successful lookup. -/
theorem mem_lookup_SR :
    ∀ (m : List (String × RankedCandidate)) (k : String) (e : RankedCandidate),
      (m.map Prod.fst).Nodup → (k, e) ∈ m → List.lookup k m = some e := by
  intro m
  induction m with
  | nil =>
    intro k e _ h
    simp at h
  | cons p rest ih =>
    intro k e hnd h
    obtain ⟨k0, e0⟩ := p
    rw [List.map_cons, List.nodup_cons] at hnd
    rcases List.mem_cons.mp h with h1 | h1
    · cases h1
      simp [List.lookup]
    · have hk : k ≠ k0 := by
        intro hkk
        subst hkk
        exact hnd.1 (List.mem_map.mpr ⟨(k, e), h1, rfl⟩)
      have hbeq : (k == k0) = false := beq_eq_false_iff_ne.mpr hk
      rw [show List.lookup k ((k0, e0) :: rest) = List.lookup k rest from by
        simp [List.lookup, hbeq]]
      exact ih k e hnd.2 h1

/-- Membership in the dedup output is exactly a successful dedup-map
lookup at the candidate's own text. -/
theorem mem_dedup_iff (cs : List RankedCandidate) (e : RankedCandidate) :
    e ∈ deduplicate_and_sort_candidates cs ↔
      List.lookup e.text (candidateMap cs) = some e := by
  unfold deduplicate_and_sort_candidates
  constructor
  · intro h
    have hval : e ∈ (candidateMap cs).map Prod.snd :=
      (List.perm_insertionSort candLEP _).mem_iff.mp h
    obtain ⟨p, hp, hpe⟩ := List.mem_map.mp hval
    have htext := candidateMap_text_inv cs p hp
    have hmem : (e.text, e) ∈ candidateMap cs := by
      obtain ⟨k, e'⟩ := p
      have he : e' = e := hpe
      have htext2 : e.text = k := he ▸ htext
      rw [htext2]
      exact he ▸ hp
    exact mem_lookup_SR _ _ _ (candidateMap_keys_nodup cs) hmem
  · intro h
    have hmem := lookup_mem_SR _ _ _ h
    have : e ∈ (candidateMap cs).map Prod.snd := List.mem_map.mpr ⟨(e.text, e), hmem, rfl⟩
    exact (List.perm_insertionSort candLEP _).mem_iff.mpr this

/-- Every retained candidate is one of the inputs. -/
theorem dedup_mem_sub (cs : List RankedCandidate) (e : RankedCandidate)
    (h : e ∈ deduplicate_and_sort_candidates cs) : e ∈ cs := by
  have hl := (mem_dedup_iff cs e).mp h
  rw [candidateMap_lookup] at hl
  cases hfil : cs.filter (fun c => c.text == e.text) with
  | nil =>
    rw [hfil] at hl
    cases hl
  | cons c0 l' =>
    rw [hfil] at hl
    have hfold : l'.foldl pickBetter c0 = e := by
      injection hl
    rcases foldl_pickBetter_mem l' c0 with hh | hh
    · have : e = c0 := by rw [← hfold, hh]
      rw [this]
      have : c0 ∈ cs.filter (fun c => c.text == e.text) := by
        rw [hfil]
        exact List.mem_cons_self _ _
      exact List.mem_of_mem_filter this
    · rw [← hfold]
      have : l'.foldl pickBetter c0 ∈ cs.filter (fun c => c.text == e.text) := by
        rw [hfil]
        exact List.mem_cons_of_mem _ hh
      exact List.mem_of_mem_filter this

/-- Every retained candidate carries the maximum score of its text. -/
theorem dedup_score_max (cs : List RankedCandidate) (e : RankedCandidate)
    (h : e ∈ deduplicate_and_sort_candidates cs) : e.score = maxScoreFor cs e.text := by
  have hl := (mem_dedup_iff cs e).mp h
  rw [candidateMap_lookup] at hl
  cases hfil : cs.filter (fun c => c.text == e.text) with
  | nil =>
    rw [hfil] at hl
    cases hl
  | cons c0 l' =>
    rw [hfil] at hl
    have hfold : l'.foldl pickBetter c0 = e := by
      injection hl
    rw [maxScoreFor_eq_filter, hfil]
    rw [← hfold, foldl_pickBetter_score]
    rw [List.foldl_cons]
    rw [Nat.zero_max]

/-- Every input text is represented in the output, at its maximal score. -/
theorem dedup_complete (cs : List RankedCandidate) (c : RankedCandidate) (h : c ∈ cs) :
    ∃ e ∈ deduplicate_and_sort_candidates cs,
      e.text = c.text ∧ e.score = maxScoreFor cs c.text := by
  have hcf : c ∈ cs.filter (fun x => x.text == c.text) :=
    List.mem_filter.mpr ⟨h, beq_iff_eq.mpr rfl⟩
  cases hfil : cs.filter (fun x => x.text == c.text) with
  | nil =>
    rw [hfil] at hcf
    simp at hcf
  | cons c0 l' =>
    have htexts : ∀ x ∈ cs.filter (fun x => x.text == c.text), x.text = c.text := by
      intro x hx
      exact beq_iff_eq.mp (List.mem_filter.mp hx).2
    have hc0 : c0 ∈ cs.filter (fun x => x.text == c.text) := by
      rw [hfil]
      exact List.mem_cons_self _ _
    have hetext : (l'.foldl pickBetter c0).text = c.text := by
      rcases foldl_pickBetter_mem l' c0 with hh | hh
      · rw [hh]
        exact htexts c0 hc0
      · refine htexts _ ?_
        rw [hfil]
        exact List.mem_cons_of_mem _ hh
    refine ⟨l'.foldl pickBetter c0, ?_, hetext, ?_⟩
    · apply (mem_dedup_iff cs (l'.foldl pickBetter c0)).mpr
      rw [candidateMap_lookup, hetext, hfil]
    · rw [maxScoreFor_eq_filter, hfil, foldl_pickBetter_score, List.foldl_cons, Nat.zero_max]

/-- No two retained candidates share a text. -/
theorem dedup_text_nodup (cs : List RankedCandidate) :
    ((deduplicate_and_sort_candidates cs).map (fun c => c.text)).Nodup := by
  have hperm : List.Perm ((deduplicate_and_sort_candidates cs).map (fun c => c.text))
      (((candidateMap cs).map Prod.snd).map (fun c => c.text)) :=
    (List.perm_insertionSort candLEP _).map _
  rw [hperm.nodup_iff]
  have heq : ((candidateMap cs).map Prod.snd).map (fun c => c.text) =
      (candidateMap cs).map Prod.fst := by
    rw [List.map_map]
    exact List.map_congr_left (fun p hp => candidateMap_text_inv cs p hp)
  rw [heq]
  exact candidateMap_keys_nodup cs

/-- The output is sorted by the ranking comparator. -/
theorem dedup_sorted (cs : List RankedCandidate) :
    List.Sorted candLEP (deduplicate_and_sort_candidates cs) :=
  List.sorted_insertionSort candLEP _

/-- Maximum scores are monotone under pair-set inclusion. -/
theorem maxScoreFor_le_of_subset (cs1 cs2 : List RankedCandidate) (t : String)
    (hsub : ∀ p : String × Nat, p ∈ candPairs cs1 → p ∈ candPairs cs2) :
    maxScoreFor cs1 t ≤ maxScoreFor cs2 t := by
  rw [maxScoreFor_eq_filter cs1 t]
  rcases foldl_max_attained (cs1.filter (fun c => c.text == t)) 0 with h0 | ⟨c, hc, hcs⟩
  · rw [h0]
    exact Nat.zero_le _
  · rw [← hcs]
    have hct : c.text = t := beq_iff_eq.mp (List.mem_filter.mp hc).2
    have hp1 : (t, c.score) ∈ candPairs cs1 := by
      unfold candPairs
      exact List.mem_map.mpr ⟨c, (List.mem_filter.mp hc).1, by rw [hct]⟩
    obtain ⟨c2, hc2, hc2p⟩ := List.mem_map.mp (hsub _ hp1)
    have hc2t : c2.text = t := congrArg Prod.fst hc2p
    have hc2s : c2.score = c.score := congrArg Prod.snd hc2p
    rw [← hc2s, maxScoreFor_eq_filter cs2 t]
    exact foldl_max_mem_le _ 0 c2 (List.mem_filter.mpr ⟨hc2, beq_iff_eq.mpr hc2t⟩)

/-- Membership in the output's (text, score) projection: exactly the
input texts, each at its maximal score. -/
theorem dedup_pairs_mem (cs : List RankedCandidate) (p : String × Nat) :
    p ∈ candPairs (deduplicate_and_sort_candidates cs) ↔
      ((∃ c ∈ cs, c.text = p.1) ∧ p.2 = maxScoreFor cs p.1) := by
  constructor
  · intro h
    obtain ⟨e, he, hep⟩ := List.mem_map.mp h
    have h1 : e.text = p.1 := congrArg Prod.fst hep
    have h2 : e.score = p.2 := congrArg Prod.snd hep
    refine ⟨⟨e, dedup_mem_sub cs e he, h1⟩, ?_⟩
    rw [← h2, ← h1]
    exact dedup_score_max cs e he
  · rintro ⟨⟨c, hc, hct⟩, hp2⟩
    obtain ⟨e, he, het, hes⟩ := dedup_complete cs c hc
    refine List.mem_map.mpr ⟨e, he, ?_⟩
    refine Prod.ext (het.trans hct) ?_
    rw [hes, hct]
    exact hp2.symm

/-- The output pairs are duplicate-free. -/
theorem dedup_pairs_nodup (cs : List RankedCandidate) :
    (candPairs (deduplicate_and_sort_candidates cs)).Nodup := by
  have h1 := dedup_text_nodup cs
  have heq : (deduplicate_and_sort_candidates cs).map (fun c => c.text) =
      (candPairs (deduplicate_and_sort_candidates cs)).map Prod.fst := by
    unfold candPairs
    rw [List.map_map]
    rfl
  rw [heq] at h1
  exact h1.of_map

/-- The output pairs are sorted by the pair order. -/
theorem dedup_pairs_sorted (cs : List RankedCandidate) :
    List.Sorted pairLEP (candPairs (deduplicate_and_sort_candidates cs)) := by
  have h := dedup_sorted cs
  unfold candPairs
  refine List.Pairwise.map _ ?_ h
  intro a b hab
  unfold candLEP candLE at hab
  rcases Bool.or_eq_true_iff.mp hab with hd | hc
  · exact Or.inl (of_decide_eq_true hd)
  · obtain ⟨hbeq, hsle⟩ := Bool.and_eq_true_iff.mp hc
    exact Or.inr ⟨beq_iff_eq.mp hbeq, hsle⟩

/-- The pair order is antisymmetric. -/
theorem pairLEP_antisymm (p q : String × Nat) (h1 : pairLEP p q) (h2 : pairLEP q p) :
    p = q := by
  rcases h1 with h1 | ⟨h1e, h1s⟩ <;> rcases h2 with h2 | ⟨h2e, h2s⟩
  · omega
  · omega
  · omega
  · exact Prod.ext (sLe_antisymm _ _ h1s h2s) h1e

/-- Determinism of the ranking content: equal input pair sets give equal
output pair lists. -/
theorem dedup_pairs_deterministic (cs1 cs2 : List RankedCandidate)
    (hset : ∀ p : String × Nat, p ∈ candPairs cs1 ↔ p ∈ candPairs cs2) :
    candPairs (deduplicate_and_sort_candidates cs1) =
      candPairs (deduplicate_and_sort_candidates cs2) := by
  have hmax : ∀ t : String, maxScoreFor cs1 t = maxScoreFor cs2 t := by
    intro t
    have hle1 := maxScoreFor_le_of_subset cs1 cs2 t (fun q hq => (hset q).mp hq)
    have hle2 := maxScoreFor_le_of_subset cs2 cs1 t (fun q hq => (hset q).mpr hq)
    omega
  have hmem : ∀ p : String × Nat,
      p ∈ candPairs (deduplicate_and_sort_candidates cs1) ↔
        p ∈ candPairs (deduplicate_and_sort_candidates cs2) := by
    intro p
    rw [dedup_pairs_mem, dedup_pairs_mem]
    constructor
    · rintro ⟨⟨c, hc, hct⟩, hp2⟩
      have hpair : (p.1, c.score) ∈ candPairs cs1 :=
        List.mem_map.mpr ⟨c, hc, by rw [hct]⟩
      obtain ⟨c2, hc2, hc2p⟩ := List.mem_map.mp ((hset _).mp hpair)
      exact ⟨⟨c2, hc2, congrArg Prod.fst hc2p⟩, by rw [hp2, hmax p.1]⟩
    · rintro ⟨⟨c, hc, hct⟩, hp2⟩
      have hpair : (p.1, c.score) ∈ candPairs cs2 :=
        List.mem_map.mpr ⟨c, hc, by rw [hct]⟩
      obtain ⟨c2, hc2, hc2p⟩ := List.mem_map.mp ((hset _).mpr hpair)
      exact ⟨⟨c2, hc2, congrArg Prod.fst hc2p⟩, by rw [hp2, hmax p.1]⟩
  have hperm : List.Perm (candPairs (deduplicate_and_sort_candidates cs1))
      (candPairs (deduplicate_and_sort_candidates cs2)) := by
    refine List.perm_of_nodup_nodup_toFinset_eq (dedup_pairs_nodup cs1)
      (dedup_pairs_nodup cs2) ?_
    ext p
    simp only [List.mem_toFinset]
    exact hmem p
  exact @List.eq_of_perm_of_sorted _ pairLEP ⟨pairLEP_antisymm⟩ _ _ hperm
    (dedup_pairs_sorted cs1) (dedup_pairs_sorted cs2)

/-- C5 (confirmed): deduplication-and-ranking retains no two entries with
the same text, keeps each distinct text at the maximum score among its
occurrences, orders the output by non-increasing score with equal scores
in ascending lexicographic text order (the `candLEP` comparator), draws
every output entry from the input, and — consequently — its (text, score)
content is uniquely determined by the input's set of (text, score) pairs. -/
theorem C5_dedup_ranking :
    (∀ cs : List RankedCandidate,
        ((deduplicate_and_sort_candidates cs).map (fun c => c.text)).Nodup ∧
          List.Sorted candLEP (deduplicate_and_sort_candidates cs) ∧
          (∀ e ∈ deduplicate_and_sort_candidates cs,
            e ∈ cs ∧ e.score = maxScoreFor cs e.text) ∧
          (∀ c ∈ cs, ∃ e ∈ deduplicate_and_sort_candidates cs,
            e.text = c.text ∧ e.score = maxScoreFor cs c.text)) ∧
      ∀ cs1 cs2 : List RankedCandidate,
        (∀ p : String × Nat, p ∈ candPairs cs1 ↔ p ∈ candPairs cs2) →
        candPairs (deduplicate_and_sort_candidates cs1) =
          candPairs (deduplicate_and_sort_candidates cs2) := by
  constructor
  · intro cs
    refine ⟨dedup_text_nodup cs, dedup_sorted cs, ?_, ?_⟩
    · intro e he
      exact ⟨dedup_mem_sub cs e he, dedup_score_max cs e he⟩
    · intro c hc
      exact dedup_complete cs c hc
  · intro cs1 cs2 hset
    exact dedup_pairs_deterministic cs1 cs2 hset

/-- C5 witness: a concrete candidate list with a duplicated text, and a
permutation of it with the same pair set. -/
theorem C5_dedup_ranking_witness :
    (∃ e ∈ deduplicate_and_sort_candidates
        [⟨"b", 5, "x"⟩, ⟨"a", 5, "y"⟩, ⟨"a", 3, "z"⟩],
      e.text = "a" ∧
        e.score = maxScoreFor [⟨"b", 5, "x"⟩, ⟨"a", 5, "y"⟩, ⟨"a", 3, "z"⟩] "a") ∧
      candPairs (deduplicate_and_sort_candidates
          [⟨"b", 5, "x"⟩, ⟨"a", 5, "y"⟩, ⟨"a", 3, "z"⟩]) =
        candPairs (deduplicate_and_sort_candidates
          [⟨"a", 3, "z"⟩, ⟨"a", 5, "y"⟩, ⟨"b", 5, "x"⟩]) :=
  ⟨(C5_dedup_ranking.1 _).2.2.2 ⟨"a", 3, "z"⟩ (by simp),
    C5_dedup_ranking.2 _ _ (by
      intro p
      simp [candPairs]
      tauto)⟩

/-- A guarded optional equals `some` only when the guard held and the
payload is the value. -/
theorem if_opt_eq_some (b : Bool) (x c : RankedCandidate)
    (h : (if b then some x else none) = some c) : b = true ∧ c = x := by
  cases hb : b with
  | true =>
    rw [hb, if_pos rfl] at h
    injection h with h2
    exact ⟨rfl, h2.symm⟩
  | false =>
    rw [hb, if_neg Bool.false_ne_true] at h
    cases h

/-- A candidate collected by a guarded selector loop came from its
element filter. -/
theorem mem_collectCands (selectAll : String → List Elem) (sel : String)
    (f : Elem → Option RankedCandidate) (c : RankedCandidate)
    (h : c ∈ collectCands selectAll sel f) : ∃ el, f el = some c := by
  unfold collectCands at h
  by_cases hok : selectorOk sel = true
  · rw [if_pos hok] at h
    obtain ⟨el, _, hf⟩ := List.mem_filterMap.mp h
    exact ⟨el, hf⟩
  · rw [if_neg hok] at h
    simp at h

/-- A candidate produced by a fold of selector loops came from one of
the loops' element filters. -/
theorem mem_fold_collect (selectAll : String → List Elem)
    (g : String → Elem → Option RankedCandidate) :
    ∀ (sels : List String) (acc : List RankedCandidate) (c : RankedCandidate),
      c ∈ sels.foldl (fun a selStr => a ++ collectCands selectAll selStr (g selStr)) acc →
      c ∈ acc ∨ ∃ selStr el, g selStr el = some c := by
  intro sels
  induction sels with
  | nil =>
    intro acc c h
    exact Or.inl (by simpa using h)
  | cons s rest ih =>
    intro acc c h
    rw [List.foldl_cons] at h
    rcases ih _ c h with h2 | h2
    · rcases List.mem_append.mp h2 with h3 | h3
      · exact Or.inl h3
      · obtain ⟨el, hf⟩ := mem_collectCands selectAll s (g s) c h3
        exact Or.inr ⟨s, el, hf⟩
    · exact Or.inr h2

/-- A sign-led string is non-empty. -/
theorem sign_led_nonempty (t : String)
    (h : (sStartsWith t "+" || sStartsWith t "-") = true) : sIsEmpty t = false := by
  rcases Bool.or_eq_true_iff.mp h with h1 | h1 <;>
  · unfold sStartsWith at h1
    unfold sIsEmpty
    cases hd : t.data with
    | nil =>
      rw [hd] at h1
      simp [List.isPrefixOf] at h1
    | cons a l => simp

/-- C8 (corrected) counterexample: the currency-FX scanner accepts the
bare text `+` as a price-change candidate (a sign with no digit), and the
equity scanner's dedicated rate pattern accepts `(%` (which has neither a
sign nor a digit) as a change-rate candidate. -/
theorem C8_counterexample :
    (discover_currency_fx_data c8FxOracle "USDJPY=FX").change_abs_candidates =
        [⟨"+", 90, "Guessed DOM selector for change abs"⟩] ∧
      ("+".data.any Char.isDigit) = false ∧
      (discover_data c8EqOracle "7203").change_pct_candidates =
        [⟨"(%", 100, "Found in secondary change label"⟩] ∧
      (sStartsWith "(%" "+" || sStartsWith "(%" "-" || "(%".data.any Char.isDigit) = false :=
  ⟨rfl, rfl, rfl, rfl⟩

/-- C8 (corrected, amended): the per-variant change-field invariants the
scanners actually enforce.  Equity (`discover_data`): absolute-change
candidates begin with a sign and contain a digit; change-rate candidates
always contain `%` (the dedicated pattern pairs it with `(` instead of a
sign-or-digit, the fallback with a sign-or-digit).  Currency-FX: change
candidates of both kinds begin with a sign (no digit requirement), rate
candidates additionally contain `%`.  Index: absolute-change candidates
are merely non-empty (its rate candidates are unconstrained). -/
theorem C8_amended :
    (∀ (selectAll : String → List Elem) (code : String) (c : RankedCandidate),
        c ∈ (discover_data selectAll code).change_abs_candidates →
        (sStartsWith c.text "+" || sStartsWith c.text "-") = true ∧
          c.text.data.any Char.isDigit = true) ∧
      (∀ (selectAll : String → List Elem) (code : String) (c : RankedCandidate),
        c ∈ (discover_data selectAll code).change_pct_candidates →
        sContainsChar c.text '%' = true) ∧
      (∀ (selectAll : String → List Elem) (code : String) (c : RankedCandidate),
        c ∈ (discover_currency_fx_data selectAll code).change_abs_candidates →
        (sStartsWith c.text "+" || sStartsWith c.text "-") = true) ∧
      (∀ (selectAll : String → List Elem) (code : String) (c : RankedCandidate),
        c ∈ (discover_currency_fx_data selectAll code).change_pct_candidates →
        (sStartsWith c.text "+" || sStartsWith c.text "-") = true ∧
          sContainsChar c.text '%' = true) ∧
      (∀ (preState : Option Json) (selectAll : String → List Elem) (code : String)
          (c : RankedCandidate),
        c ∈ (discover_index_data preState selectAll code).change_abs_candidates →
        sIsEmpty c.text = false) := by
  refine ⟨?_, ?_, ?_, ?_, ?_⟩
  · intro sa code c hc
    have hraw : c ∈ equity_change_abs_raw sa :=
      dedup_mem_sub _ _ (hc : c ∈ deduplicate_and_sort_candidates (equity_change_abs_raw sa))
    obtain ⟨el, _, hf⟩ := List.mem_filterMap.mp hraw
    have hf2 : (if (sStartsWith (sTrim el.text) "+" || sStartsWith (sTrim el.text) "-") &&
          (sTrim el.text).data.any Char.isDigit then
        some (⟨sTrim el.text, 100, "Found in primary change label"⟩ : RankedCandidate)
      else none) = some c := hf
    obtain ⟨hg, hceq⟩ := if_opt_eq_some _ _ _ hf2
    rw [hceq]
    exact Bool.and_eq_true_iff.mp hg
  · intro sa code c hc
    have hraw : c ∈ equity_change_pct_raw sa :=
      dedup_mem_sub _ _ (hc : c ∈ deduplicate_and_sort_candidates (equity_change_pct_raw sa))
    unfold equity_change_pct_raw at hraw
    by_cases hemp : (equity_change_pct_primary sa).isEmpty = true
    · rw [if_pos hemp] at hraw
      rcases mem_fold_collect sa
          (fun selStr el =>
            if sContainsChar (sTrim el.text) '%' &&
                (sStartsWith (sTrim el.text) "+" || sStartsWith (sTrim el.text) "-" ||
                  (sTrim el.text).data.any Char.isDigit) then
              some (⟨sTrim el.text, 50,
                "Broader fallback: found '%' in element with selector: " ++ selStr⟩ :
                  RankedCandidate)
            else none)
          ["[class*='change']", "[class*='percent']", "span", "div"] [] c hraw with
        h0 | ⟨selStr, el, hf⟩
      · simp at h0
      · obtain ⟨hg, hceq⟩ := if_opt_eq_some _ _ _ hf
        rw [hceq]
        exact (Bool.and_eq_true_iff.mp hg).1
    · rw [if_neg hemp] at hraw
      obtain ⟨el, _, hf⟩ := List.mem_filterMap.mp hraw
      have hf2 : (if sContainsChar (sTrim el.text) '%' && sContainsChar (sTrim el.text) '(' then
          some (⟨sTrim el.text, 100, "Found in secondary change label"⟩ : RankedCandidate)
        else none) = some c := hf
      obtain ⟨hg, hceq⟩ := if_opt_eq_some _ _ _ hf2
      rw [hceq]
      exact (Bool.and_eq_true_iff.mp hg).1
  · intro sa code c hc
    have hraw : c ∈ fx_change_abs_raw sa :=
      dedup_mem_sub _ _ (hc : c ∈ deduplicate_and_sort_candidates (fx_change_abs_raw sa))
    obtain ⟨el, _, hf⟩ := List.mem_filterMap.mp hraw
    have hf2 : (if (sStartsWith (sTrim el.text) "+" || sStartsWith (sTrim el.text) "-") &&
          !(sContainsChar (sTrim el.text) '%') then
        some (⟨sTrim el.text, 90, "Guessed DOM selector for change abs"⟩ : RankedCandidate)
      else none) = some c := hf
    obtain ⟨hg, hceq⟩ := if_opt_eq_some _ _ _ hf2
    rw [hceq]
    exact (Bool.and_eq_true_iff.mp hg).1
  · intro sa code c hc
    have hraw : c ∈ fx_change_pct_raw sa :=
      dedup_mem_sub _ _ (hc : c ∈ deduplicate_and_sort_candidates (fx_change_pct_raw sa))
    obtain ⟨el, _, hf⟩ := List.mem_filterMap.mp hraw
    have hf2 : (if (sStartsWith (sTrim el.text) "+" || sStartsWith (sTrim el.text) "-") &&
          sContainsChar (sTrim el.text) '%' then
        some (⟨sTrim el.text, 90, "Guessed DOM selector for change pct"⟩ : RankedCandidate)
      else none) = some c := hf
    obtain ⟨hg, hceq⟩ := if_opt_eq_some _ _ _ hf2
    rw [hceq]
    exact Bool.and_eq_true_iff.mp hg
  · intro ps sa code c hc
    have hraw : c ∈ index_change_abs_raw ps sa :=
      dedup_mem_sub _ _ (hc : c ∈ deduplicate_and_sort_candidates (index_change_abs_raw ps sa))
    unfold index_change_abs_raw at hraw
    by_cases hcond : (((index_json_price ps).isEmpty || (index_json_abs ps).isEmpty ||
        (index_json_pct ps).isEmpty) && (index_json_abs ps).isEmpty) = true
    · rw [if_pos hcond] at hraw
      obtain ⟨el, hf⟩ := mem_collectCands sa _ _ c hraw
      have hf2 : (if sStartsWith (sTrim el.text) "+" || sStartsWith (sTrim el.text) "-" then
          some (⟨sTrim el.text, 90, "Found in _PriceChangeLabel__primary (fallback)"⟩ :
            RankedCandidate)
        else none) = some c := hf
      obtain ⟨hg, hceq⟩ := if_opt_eq_some _ _ _ hf2
      rw [hceq]
      exact sign_led_nonempty _ hg
    · rw [if_neg hcond] at hraw
      unfold index_json_abs at hraw
      cases hpb : index_price_board ps with
      | none =>
        rw [hpb] at hraw
        simp at hraw
      | some b =>
        rw [hpb] at hraw
        have hraw2 : c ∈ (match (b.get? "change").bind Json.asStr? with
          | some cv =>
            if sIsEmpty cv then []
            else [(⟨cv, 100, "Found in __PRELOADED_STATE__ (change)"⟩ : RankedCandidate)]
          | none => ([] : List RankedCandidate)) := hraw
        cases hcv : (b.get? "change").bind Json.asStr? with
        | none =>
          rw [hcv] at hraw2
          simp at hraw2
        | some cv =>
          rw [hcv] at hraw2
          have hraw3 : c ∈ (if sIsEmpty cv then []
            else [(⟨cv, 100, "Found in __PRELOADED_STATE__ (change)"⟩ : RankedCandidate)]) :=
            hraw2
          by_cases hemp : sIsEmpty cv = true
          · rw [if_pos hemp] at hraw3
            simp at hraw3
          · rw [if_neg hemp] at hraw3
            have hceq : c = ⟨cv, 100, "Found in __PRELOADED_STATE__ (change)"⟩ := by
              simpa using hraw3
            rw [hceq]
            exact Bool.eq_false_iff.mpr hemp

/-- C8 witness: a well-formed FX change text instantiating the amended
sign invariant. -/
theorem C8_amended_witness :
    (sStartsWith "+5" "+" || sStartsWith "+5" "-") = true :=
  C8_amended.2.2.1 c8WitnessOracle "USDJPY=FX"
    ⟨"+5", 90, "Guessed DOM selector for change abs"⟩
    (by
      rw [show (discover_currency_fx_data c8WitnessOracle "USDJPY=FX").change_abs_candidates =
        [⟨"+5", 90, "Guessed DOM selector for change abs"⟩] from rfl]
      exact List.mem_singleton.mpr rfl)

mutual
/-- `find_object_paths` pushes exactly one path per qualifying object. -/
theorem fop_length (v : Json) (keys cur : List String) :
    (find_object_paths v keys cur).length = countQualifying v keys :=
  match v with
  | Json.obj m => by
    unfold find_object_paths countQualifying
    rw [List.length_append, fop_fields_length m keys cur]
    by_cases h : keys.all (fun k => (List.lookup k m).isSome) = true
    · simp [h]
    · simp [h]
  | Json.arr a => by
    unfold find_object_paths countQualifying
    exact fop_elems_length a keys cur
  | Json.null => rfl
  | Json.bool b => rfl
  | Json.num n => rfl
  | Json.str s => rfl

theorem fop_fields_length (fields : List (String × Json)) (keys cur : List String) :
    (fop_fields fields keys cur).length = countQualifyingFields fields keys :=
  match fields with
  | [] => rfl
  | (k, v) :: rest => by
    unfold fop_fields countQualifyingFields
    rw [List.length_append, fop_length v keys (cur ++ [k]), fop_fields_length rest keys cur]

theorem fop_elems_length (elems : List Json) (keys cur : List String) :
    (fop_elems elems keys cur).length = countQualifyingElems elems keys :=
  match elems with
  | [] => rfl
  | v :: rest => by
    unfold fop_elems countQualifyingElems
    rw [List.length_append, fop_length v keys cur, fop_elems_length rest keys cur]
end

/-- A membership in a duplicate-free association list is a lookup. -/
theorem mem_lookup_SJ :
    ∀ (m : List (String × Json)) (k : String) (e : Json),
      (m.map Prod.fst).Nodup → (k, e) ∈ m → List.lookup k m = some e := by
  intro m
  induction m with
  | nil =>
    intro k e _ h
    simp at h
  | cons p rest ih =>
    intro k e hnd h
    obtain ⟨k0, e0⟩ := p
    rw [List.map_cons, List.nodup_cons] at hnd
    rcases List.mem_cons.mp h with h1 | h1
    · cases h1
      simp [List.lookup]
    · have hk : k ≠ k0 := by
        intro hkk
        subst hkk
        exact hnd.1 (List.mem_map.mpr ⟨(k, e), h1, rfl⟩)
      have hbeq : (k == k0) = false := beq_eq_false_iff_ne.mpr hk
      rw [show List.lookup k ((k0, e0) :: rest) = List.lookup k rest from by
        simp [List.lookup, hbeq]]
      exact ih k e hnd.2 h1

mutual
/-- Array-free soundness: a recorded path, relative to its prefix,
re-descends to a qualifying object. -/
theorem fop_sound (v : Json) (keys : List String) (cur p : List String)
    (hv : plainTree v = true) (hp : p ∈ find_object_paths v keys cur) :
    ∃ q m, p = cur ++ q ∧ List.foldl jsonIndexStr v q = Json.obj m ∧
      keys.all (fun k => (List.lookup k m).isSome) = true :=
  match v with
  | Json.obj mm => by
    unfold find_object_paths at hp
    unfold plainTree at hv
    obtain ⟨hnd0, hpf⟩ := Bool.and_eq_true_iff.mp hv
    have hnd : (mm.map Prod.fst).Nodup := of_decide_eq_true hnd0
    rcases List.mem_append.mp hp with h1 | h1
    · by_cases hq : keys.all (fun k => (List.lookup k mm).isSome) = true
      · rw [if_pos hq] at h1
        have hpc : p = cur := List.mem_singleton.mp h1
        exact ⟨[], mm, by rw [hpc]; simp, rfl, hq⟩
      · rw [if_neg hq] at h1
        simp at h1
    · obtain ⟨k, w, hkw, q, m, hpq, hfold, hqual⟩ :=
        fop_fields_sound mm keys cur p hpf h1
      refine ⟨k :: q, m, ?_, ?_, hqual⟩
      · rw [hpq]
        simp
      · rw [List.foldl_cons]
        have hlk : List.lookup k mm = some w := mem_lookup_SJ mm k w hnd hkw
        have hred : jsonIndexStr (Json.obj mm) k = w := by
          show (List.lookup k mm).getD Json.null = w
          rw [hlk]
          rfl
        rw [hred]
        exact hfold
  | Json.arr a => by
    unfold plainTree at hv
    exact Bool.noConfusion hv
  | Json.null => by
    unfold find_object_paths at hp
    simp at hp
  | Json.bool b => by
    unfold find_object_paths at hp
    simp at hp
  | Json.num n => by
    unfold find_object_paths at hp
    simp at hp
  | Json.str s => by
    unfold find_object_paths at hp
    simp at hp

theorem fop_fields_sound (fields : List (String × Json)) (keys : List String)
    (cur p : List String) (hf : plainFields fields = true)
    (hp : p ∈ fop_fields fields keys cur) :
    ∃ k w, (k, w) ∈ fields ∧ ∃ q m, p = (cur ++ [k]) ++ q ∧
      List.foldl jsonIndexStr w q = Json.obj m ∧
      keys.all (fun k2 => (List.lookup k2 m).isSome) = true :=
  match fields with
  | [] => by
    unfold fop_fields at hp
    simp at hp
  | (k0, w0) :: rest => by
    unfold fop_fields at hp
    unfold plainFields at hf
    obtain ⟨hw0, hrest⟩ := Bool.and_eq_true_iff.mp hf
    rcases List.mem_append.mp hp with h1 | h1
    · obtain ⟨q, m, hpq, hfold, hqual⟩ := fop_sound w0 keys (cur ++ [k0]) p hw0 h1
      exact ⟨k0, w0, List.mem_cons_self _ _, q, m, hpq, hfold, hqual⟩
    · obtain ⟨k, w, hkw, rest2⟩ := fop_fields_sound rest keys cur p hrest h1
      exact ⟨k, w, List.mem_cons_of_mem _ hkw, rest2⟩
end

/-- When the root object qualifies, its (empty) path is pushed first. -/
theorem fop_root (m : List (String × Json)) (keys : List String)
    (h : keys.all (fun k => (List.lookup k m).isSome) = true) :
    (find_object_paths (Json.obj m) keys []).head? = some [] := by
  unfold find_object_paths
  rw [if_pos h]
  rfl

/-- C7 (corrected, amended): the search is a full depth-first traversal
descending into objects and arrays, pushing exactly one path per object
containing all required keys (`countQualifying`), with the root's empty
path pushed first when the root qualifies; but recorded paths contain
object keys only, so re-descending the original tree along a returned
path is guaranteed to reach the qualifying object only on array-free
trees (with serde's duplicate-free object keys) — with an array on the
route, the path omits the array position and re-descent lands elsewhere. -/
theorem C7_amended :
    (∀ (v : Json) (keys cur : List String),
        (find_object_paths v keys cur).length = countQualifying v keys) ∧
      (∀ (m : List (String × Json)) (keys : List String),
        keys.all (fun k => (List.lookup k m).isSome) = true →
        (find_object_paths (Json.obj m) keys []).head? = some []) ∧
      (∀ (v : Json) (keys : List String) (p : List String),
        plainTree v = true → p ∈ find_object_paths v keys [] →
        ∃ m, List.foldl jsonIndexStr v p = Json.obj m ∧
          keys.all (fun k => (List.lookup k m).isSome) = true) := by
  refine ⟨fun v keys cur => fop_length v keys cur, fun m keys h => fop_root m keys h, ?_⟩
  intro v keys p hv hp
  obtain ⟨q, m, hpq, hfold, hqual⟩ := fop_sound v keys [] p hv hp
  rw [List.nil_append] at hpq
  rw [hpq]
  exact ⟨m, hfold, hqual⟩

/-- C7 witness: an array-free two-level tree where the root and a child
both qualify; the root path comes first and the child path re-descends to
the qualifying child object. -/
theorem C7_amended_witness :
    (find_object_paths c7Plain ["code"] []).head? = some [] ∧
      plainTree c7Plain = true ∧
      ∃ m, List.foldl jsonIndexStr c7Plain ["b"] = Json.obj m ∧
        (["code"].all (fun k => (List.lookup k m).isSome)) = true :=
  ⟨C7_amended.2.1 [("code", Json.str "X"), ("b", Json.obj [("code", Json.str "Y")])]
      ["code"] rfl,
    rfl,
    C7_amended.2.2 c7Plain ["code"] ["b"] rfl (by
      rw [show find_object_paths c7Plain ["code"] [] = [[], ["b"]] from rfl]
      simp)⟩
